import Mathlib

/-!
Verification of the queue-position ordering and token lifecycle engine of the
Smart-Queue-Management repository.  The definitions below are a shallow
embedding of the backend's token controller (`tokenController.ts`), the public
token-creation route, and the Mongoose `Token` pre-save hook, restricted to a
single queue (all operations in the source first resolve one queue and then
mutate only that queue's tokens and counters).  Timestamps are integer
milliseconds; `Math.max(0, n - 1)` on the occupancy counter is modelled by
truncated natural subtraction, which agrees with it exactly.
-/

namespace SmartQueue

/-- Token status, from the `status` enum of `Token.ts`. -/
inductive Status where
| waiting
| inService
| served
| cancelled
| noShow
deriving DecidableEq, Repr

/-- The `timestamps` subdocument of `Token.ts` (`created` has a default and is
always present; the others are optional). -/
structure Timestamps where
created : Int
called : Option Int := none
servedAt : Option Int := none
completed : Option Int := none
cancelled : Option Int := none
deriving DecidableEq, Repr

/-- A token document: the fields of `Token.ts` that the lifecycle engine reads
or writes (display-only fields such as customer name, token number, notes and
priority are omitted; no operation branches on them). -/
structure Token where
id : Nat
position : Nat
status : Status
ts : Timestamps
waitTime : Option Int := none
serviceTime : Option Int := none
deriving DecidableEq, Repr

/-- A queue document: the fields of `Queue.ts` used by the engine. -/
structure Queue where
isActive : Bool := true
maxCapacity : Option Nat := none
currentLength : Nat := 0
totalServed : Nat := 0
totalCancelled : Nat := 0
deriving DecidableEq, Repr

/-- The persistent state of one queue: the queue document, its token
documents, and a fresh-id source standing for MongoDB object-id generation. -/
structure QState where
queue : Queue
tokens : List Token := []
nextId : Nat := 0
deriving DecidableEq, Repr

/-- The error responses the controllers produce (HTTP 404 / HTTP 400 with a
message). -/
inductive ApiError where
| notFound (msg : String)
| badRequest (msg : String)
deriving DecidableEq, Repr

/-- The `status: { $in: ["waiting", "in_service"] }` filter. -/
def activeB (t : Token) : Bool :=
t.status == Status.waiting || t.status == Status.inService

/-- Tokens of the queue matching the active filter. -/
def activeToks (s : QState) : List Token :=
s.tokens.filter activeB

/-- Positions of the active tokens, in document order. -/
def activePositions (s : QState) : List Nat :=
(activeToks s).map Token.position

/-- Number of active tokens. -/
def numActive (s : QState) : Nat :=
(activeToks s).length

/-- Position of the token returned by `findOne(...).sort({ position: -1 })`,
or `0` when the list is empty (the callers use it only as `maxPos + 1`). -/
def maxPos (ts : List Token) : Nat :=
(ts.map Token.position).foldr max 0

/-- Model of `Token.findById` (object ids are unique in MongoDB). -/
def findToken (ts : List Token) (id : Nat) : Option Token :=
ts.find? (fun t => t.id == id)

/-- Writing one document back (`token.save()`): replace the token with the
given id. -/
def updateById (ts : List Token) (id : Nat) (t' : Token) : List Token :=
ts.map (fun u => if u.id == id then t' else u)

/-- The capacity guard `queue.maxCapacity && queue.currentLength >= queue.maxCapacity`
(JavaScript truthiness: a zero capacity never triggers the guard). -/
def capFull (q : Queue) : Bool :=
match q.maxCapacity with
| some c => c != 0 && q.currentLength ≥ c
| none => false

/-- JavaScript `Math.round(d / 60000)`: the nearest whole minute, halves
rounded toward positive infinity, as computed by the pre-save hook. -/
def roundMinutes (d : Int) : Int :=
Int.fdiv (2 * d + 60000) 120000

/-- The `tokenSchema.pre("save")` hook of `Token.ts`: when the status path was
modified, stamp the timestamp of the new status and derive `waitTime`
(entering `in_service`) or `serviceTime` (entering `served`). -/
def preSaveHook (statusModified : Bool) (now : Int) (t : Token) : Token :=
if statusModified then
  match t.status with
  | Status.inService =>
      { t with ts := { t.ts with called := some now },
               waitTime := some (roundMinutes (now - t.ts.created)) }
  | Status.served =>
      { t with ts := { t.ts with completed := some now },
               serviceTime :=
                 match t.ts.called with
                 | some c => some (roundMinutes (now - c))
                 | none => t.serviceTime }
  | Status.cancelled =>
      { t with ts := { t.ts with cancelled := some now } }
  | Status.noShow =>
      { t with ts := { t.ts with cancelled := some now } }
  | Status.waiting => t
else t

/-- Authenticated token creation (`createToken` in the token controller):
requires the queue active (the `findOne` filter includes `isActive: true`),
rejects at capacity, then assigns one plus the highest position among the
queue's active tokens (or position 1 when there are none) and increments the
occupancy counter. -/
def createToken (s : QState) (now : Int) : Except ApiError (QState × Token) :=
if !s.queue.isActive then
  Except.error (ApiError.notFound "Queue not found or inactive")
else if capFull s.queue then
  Except.error (ApiError.badRequest "Queue is at maximum capacity")
else
  let nextPosition := maxPos (s.tokens.filter activeB) + 1
  let tok : Token :=
    { id := s.nextId, position := nextPosition, status := Status.waiting,
      ts := { created := now } }
  Except.ok
    ({ queue := { s.queue with currentLength := s.queue.currentLength + 1 },
       tokens := s.tokens ++ [tok],
       nextId := s.nextId + 1 }, tok)

/-- Public token creation (the `router.post("/public")` handler in the routes
file): the same active and capacity guards, but the next position is one plus
the highest position among **all** tokens of the queue — the `findOne` there
carries no status filter. -/
def publicCreateToken (s : QState) (now : Int) : Except ApiError (QState × Token) :=
if !s.queue.isActive then
  Except.error (ApiError.badRequest "Queue is currently not accepting new tokens")
else if capFull s.queue then
  Except.error (ApiError.badRequest "Queue is currently full")
else
  let position := maxPos s.tokens + 1
  let tok : Token :=
    { id := s.nextId, position := position, status := Status.waiting,
      ts := { created := now } }
  Except.ok
    ({ queue := { s.queue with currentLength := s.queue.currentLength + 1 },
       tokens := s.tokens ++ [tok],
       nextId := s.nextId + 1 }, tok)

/-- One step of the scan selecting a lowest-position waiting token. -/
def minWaitingStep (acc : Option Token) (t : Token) : Option Token :=
if t.status == Status.waiting then
  match acc with
  | none => some t
  | some b => if t.position < b.position then some t else acc
else acc

/-- The token returned by `findOne({ queueId, status: "waiting" }).sort({ position: 1 })`:
a waiting token of minimal position (first such in document order). -/
def minWaiting (ts : List Token) : Option Token :=
ts.foldl minWaitingStep none

/-- The `callNextToken` controller: pick the lowest-position waiting token,
set it `in_service` and save it (the pre-save hook stamps `called` and
computes `waitTime`); fail with 404 when no waiting token exists.  The queue
document is not touched. -/
def callNextToken (s : QState) (now : Int) : Except ApiError (QState × Token) :=
match minWaiting s.tokens with
| none => Except.error (ApiError.notFound "No waiting tokens found")
| some t =>
    let t' := preSaveHook true now { t with status := Status.inService }
    Except.ok ({ s with tokens := updateById s.tokens t.id t' }, t')

/-- The `completeToken` controller: only an `in_service` token may be
completed; on success the token becomes `served` (the hook stamps `completed`
and computes `serviceTime`), `totalServed` is incremented and the occupancy
counter is decremented (`Math.max(0, len - 1)`). -/
def completeToken (s : QState) (tokenId : Nat) (now : Int) :
    Except ApiError (QState × Token) :=
match findToken s.tokens tokenId with
| none => Except.error (ApiError.notFound "Token not found")
| some t =>
    if t.status != Status.inService then
      Except.error (ApiError.badRequest "Token is not currently in service")
    else
      let t' := preSaveHook true now { t with status := Status.served }
      Except.ok
        ({ s with
             tokens := updateById s.tokens tokenId t',
             queue := { s.queue with
                          totalServed := s.queue.totalServed + 1,
                          currentLength := s.queue.currentLength - 1 } }, t')

/-- The `$inc: { position: -1 }` batch update of `cancelToken`, applied to
the documents matching `status: "waiting", position: { $gt: tokenPosition }`. -/
def cancelShift (tokenPosition : Nat) (u : Token) : Token :=
if u.status == Status.waiting && tokenPosition < u.position then
  { u with position := u.position - 1 }
else u

/-- The `cancelToken` controller: only a waiting or in-service token may be
cancelled.  The token is saved as `cancelled` first (hook stamps `cancelled`);
then, if it had been waiting, every still-waiting token with a greater
position is shifted down by one; `totalCancelled` is incremented and the
occupancy counter decremented. -/
def cancelToken (s : QState) (tokenId : Nat) (now : Int) :
    Except ApiError (QState × Token) :=
match findToken s.tokens tokenId with
| none => Except.error (ApiError.notFound "Token not found")
| some t =>
    if !(t.status == Status.waiting || t.status == Status.inService) then
      Except.error (ApiError.badRequest "Can only cancel waiting or in-service tokens")
    else
      let wasWaiting := t.status == Status.waiting
      let tokenPosition := t.position
      let t' := preSaveHook true now { t with status := Status.cancelled }
      let ts1 := updateById s.tokens tokenId t'
      let ts2 :=
        if wasWaiting then ts1.map (cancelShift tokenPosition)
        else ts1
      Except.ok
        ({ s with
             tokens := ts2,
             queue := { s.queue with
                          totalCancelled := s.queue.totalCancelled + 1,
                          currentLength := s.queue.currentLength - 1 } }, t')

/-- The queue-counter bookkeeping of the `updateTokenStatus` controller: the
`waiting -> in_service` pair touches nothing, `in_service -> served` books a
serve, any transition to `cancelled` books a cancellation, and every other
pair — including every transition to `no_show` — leaves the queue untouched. -/
def updStatusQueue (q : Queue) (newStatus oldStatus : Status) : Queue :=
if newStatus == Status.inService && oldStatus == Status.waiting then q
else if newStatus == Status.served && oldStatus == Status.inService then
  { q with totalServed := q.totalServed + 1, currentLength := q.currentLength - 1 }
else if newStatus == Status.cancelled then
  { q with totalCancelled := q.totalCancelled + 1, currentLength := q.currentLength - 1 }
else q

/-- The `updateTokenStatus` controller (`PATCH /api/tokens/:id`): the new
status is applied unconditionally; the only status-specific logic is the
timestamp/counter bookkeeping for the three listed pairs (`waiting ->
in_service`, `in_service -> served`, `* -> cancelled`).  No transition
legality is checked, and `no_show` touches no counters.  The pre-save hook
runs afterwards (status counts as modified when it changed). -/
def updateTokenStatus (s : QState) (tokenId : Nat) (newStatus : Status)
    (now : Int) : Except ApiError (QState × Token) :=
match findToken s.tokens tokenId with
| none => Except.error (ApiError.notFound "Token not found")
| some t =>
    let oldStatus := t.status
    let t1 := { t with status := newStatus }
    let t2 :=
      if newStatus == Status.inService && oldStatus == Status.waiting then
        { t1 with ts := { t1.ts with called := some now } }
      else if newStatus == Status.served && oldStatus == Status.inService then
        { t1 with ts := { t1.ts with servedAt := some now, completed := some now } }
      else if newStatus == Status.cancelled then
        { t1 with ts := { t1.ts with cancelled := some now } }
      else t1
    let q' := updStatusQueue s.queue newStatus oldStatus
    let t3 := preSaveHook (newStatus != oldStatus) now t2
    Except.ok ({ s with tokens := updateById s.tokens tokenId t3, queue := q' }, t3)

/-- The position-shift batch shared by `updateTokenPosition` and
`reorderToken`: both `updateMany` filters carry `status: "waiting"` and
exclude the moved token's id. -/
def shiftDown (tokenId oldPosition newPosition : Nat) (u : Token) : Token :=
if u.id != tokenId && u.status == Status.waiting &&
    oldPosition < u.position && u.position ≤ newPosition then
  { u with position := u.position - 1 }
else u

def shiftUp (tokenId oldPosition newPosition : Nat) (u : Token) : Token :=
if u.id != tokenId && u.status == Status.waiting &&
    newPosition ≤ u.position && u.position < oldPosition then
  { u with position := u.position + 1 }
else u

def shiftOthers (ts : List Token) (tokenId : Nat) (oldPosition newPosition : Nat) :
    List Token :=
if newPosition > oldPosition then
  ts.map (shiftDown tokenId oldPosition newPosition)
else
  ts.map (shiftUp tokenId oldPosition newPosition)

/-- The shared body of the two reorder controllers: only a waiting token may
be reordered; other waiting tokens in the affected range are shifted by the
batch above and the moved token is then saved with exactly the requested
position (status unmodified, so the hook does nothing). -/
def reorderCore (s : QState) (tokenId : Nat) (newPosition : Nat) :
    Except ApiError (QState × Token) :=
match findToken s.tokens tokenId with
| none => Except.error (ApiError.notFound "Token not found")
| some t =>
    if t.status != Status.waiting then
      Except.error (ApiError.badRequest "Can only reorder waiting tokens")
    else
      let ts1 := shiftOthers s.tokens tokenId t.position newPosition
      let t' := { t with position := newPosition }
      Except.ok ({ s with tokens := updateById ts1 tokenId t' }, t')

/-- The `updateTokenPosition` controller (`PUT /api/tokens/:id/position`):
rejects a zero position (`!newPosition || newPosition < 1`), then runs the
shared reorder body. -/
def updateTokenPosition (s : QState) (tokenId : Nat) (newPosition : Nat) :
    Except ApiError (QState × Token) :=
if newPosition < 1 then
  Except.error (ApiError.badRequest "Invalid position")
else reorderCore s tokenId newPosition

/-- The `reorderToken` controller (`PATCH /api/tokens/:id/reorder`): identical
to `updateTokenPosition` except that it performs no range check at all. -/
def reorderToken (s : QState) (tokenId : Nat) (newPosition : Nat) :
    Except ApiError (QState × Token) :=
reorderCore s tokenId newPosition

/-- One inbound mutation request against the queue. -/
inductive Op where
| create (now : Int)
| publicCreate (now : Int)
| callNext (now : Int)
| complete (tokenId : Nat) (now : Int)
| cancel (tokenId : Nat) (now : Int)
| setStatus (tokenId : Nat) (st : Status) (now : Int)
| reorder (tokenId : Nat) (newPosition : Nat)
deriving DecidableEq, Repr

/-- Dispatch one request to its controller. -/
def runOp (op : Op) (s : QState) : Except ApiError (QState × Token) :=
match op with
| Op.create now => createToken s now
| Op.publicCreate now => publicCreateToken s now
| Op.callNext now => callNextToken s now
| Op.complete id now => completeToken s id now
| Op.cancel id now => cancelToken s id now
| Op.setStatus id st now => updateTokenStatus s id st now
| Op.reorder id newPosition => updateTokenPosition s id newPosition

/-- The state after a request: the controllers return their error responses
before performing any write, so a failed request leaves the state unchanged. -/
def applyOp (op : Op) (s : QState) : QState :=
match runOp op s with
| Except.ok (s', _) => s'
| Except.error _ => s

/-- The state after a sequence of requests. -/
def run (ops : List Op) (s : QState) : QState :=
match ops with
| [] => s
| op :: rest => run rest (applyOp op s)

/-- A queue with no tokens yet. -/
def emptyState (q : Queue) : QState :=
{ queue := q, tokens := [], nextId := 0 }

/-- The contiguity property of the spec: the active tokens' positions, as a
multiset, are exactly 1..N where N is the number of active tokens. -/
def contiguous (s : QState) : Prop :=
(activePositions s).Perm (List.range' 1 (numActive s))

instance (s : QState) : Decidable (contiguous s) := by
unfold contiguous
exact List.decidablePerm _ _

/-- The occupancy invariant of the spec: the queue's occupancy counter equals
the number of active tokens. -/
def occInv (s : QState) : Prop :=
s.queue.currentLength = numActive s

instance (s : QState) : Decidable (occInv s) := by
unfold occInv
infer_instance

/-- Status of the token with the given id, if present. -/
def statusOf (s : QState) (id : Nat) : Option Status :=
(findToken s.tokens id).map Token.status

/-- Position of the token with the given id, if present. -/
def posOf (s : QState) (id : Nat) : Option Nat :=
(findToken s.tokens id).map Token.position

/-- Well-formedness used for the contiguity induction: distinct ids, all ids
below the fresh-id source, no token in service, and the contiguity property. -/
def WFcore (s : QState) : Prop :=
(s.tokens.map Token.id).Nodup ∧
(∀ t ∈ s.tokens, t.id < s.nextId) ∧
(∀ t ∈ s.tokens, t.status ≠ Status.inService) ∧
contiguous s

instance (s : QState) : Decidable (WFcore s) := by
unfold WFcore
infer_instance

/-- Requests of the restricted core considered by the amended contiguity
claim: authenticated enqueue, cancellation, and reorder whose target position
is within the current contiguous range. -/
def coreOk (op : Op) (s : QState) : Prop :=
match op with
| Op.create _ => True
| Op.cancel _ _ => True
| Op.reorder id newPosition =>
    ∀ t ∈ s.tokens, t.id = id → t.status = Status.waiting →
      1 ≤ newPosition ∧ newPosition ≤ numActive s
| _ => False

instance (op : Op) (s : QState) : Decidable (coreOk op s) := by
cases op <;> · unfold coreOk; infer_instance

/-- A sequence of requests each admissible (in the restricted sense above) in
the state it is applied to. -/
def coreSeq (ops : List Op) (s : QState) : Prop :=
match ops with
| [] => True
| op :: rest => coreOk op s ∧ coreSeq rest (applyOp op s)

def coreSeqDec : (ops : List Op) → (s : QState) → Decidable (coreSeq ops s)
| [], _ => isTrue True.intro
| op :: rest, s =>
    have : Decidable (coreSeq rest (applyOp op s)) := coreSeqDec rest (applyOp op s)
    inferInstanceAs (Decidable (_ ∧ _))

instance (ops : List Op) (s : QState) : Decidable (coreSeq ops s) :=
coreSeqDec ops s

/-- Requests under which the amended occupancy claim is stated: everything
except a status update that is an illegal transition or a transition to
`no_show` (both of which the code books incorrectly or not at all). -/
def occSafe (op : Op) (s : QState) : Prop :=
match op with
| Op.setStatus id st _ =>
    ∀ t ∈ s.tokens, t.id = id →
      (t.status = Status.waiting ∧ st = Status.inService) ∨
      (t.status = Status.inService ∧
        (st = Status.served ∨ st = Status.cancelled ∨ st = Status.waiting)) ∨
      (t.status = Status.waiting ∧ st = Status.cancelled)
| _ => True

instance (op : Op) (s : QState) : Decidable (occSafe op s) := by
cases op <;> · unfold occSafe; infer_instance

/-- The occupancy invariant together with the bookkeeping facts that make it
inductive: distinct token ids (as the database guarantees for `_id`) and every
id below the fresh-id source.  Both hold in a fresh queue and are preserved by
every operation. -/
def occWF (s : QState) : Prop :=
occInv s ∧ (s.tokens.map Token.id).Nodup ∧ ∀ t ∈ s.tokens, t.id < s.nextId

instance (s : QState) : Decidable (occWF s) := by
unfold occWF
infer_instance

/-- A sequence of requests each admissible for the occupancy claim in the
state it is applied to. -/
def occSeq (ops : List Op) (s : QState) : Prop :=
match ops with
| [] => True
| op :: rest => occSafe op s ∧ occSeq rest (applyOp op s)

def occSeqDec : (ops : List Op) → (s : QState) → Decidable (occSeq ops s)
| [], _ => isTrue True.intro
| op :: rest, s =>
    have : Decidable (occSeq rest (applyOp op s)) := occSeqDec rest (applyOp op s)
    inferInstanceAs (Decidable (_ ∧ _))

instance (ops : List Op) (s : QState) : Decidable (occSeq ops s) :=
occSeqDec ops s

/-- A queue document with all defaults (active, unbounded, zero counters). -/
def defaultQueue : Queue := {}

/-- Scenario: one token is created, called, and completed; the token is then
`served`. -/
def servedSt : QState :=
run [Op.create 0, Op.callNext 60000, Op.complete 0 120000] (emptyState defaultQueue)

/-- The served token of `servedSt`. -/
def servedTok : Token :=
{ id := 0, position := 1, status := Status.served,
  ts := { created := 0, called := some 60000, completed := some 120000 },
  waitTime := some 1, serviceTime := some 1 }

/-- Scenario: two tokens are created and the first is called; token 0 is
`in_service` at position 1 and token 1 is `waiting` at position 2. -/
def inServiceSt : QState :=
run [Op.create 0, Op.create 0, Op.callNext 60000] (emptyState defaultQueue)

/-- The token of a successful controller result, if any. -/
def okToken : Except ApiError (QState × Token) → Option Token
| Except.ok p => some p.2
| Except.error _ => none

/-- The resulting state of a successful controller result, if any. -/
def okState : Except ApiError (QState × Token) → Option QState
| Except.ok p => some p.1
| Except.error _ => none

/-- Scenario: three tokens are created and the first is called; token 0 is
`in_service` at position 1 and tokens 1 and 2 are `waiting` at positions 2
and 3. -/
def inService3St : QState :=
run [Op.create 0, Op.create 0, Op.create 0, Op.callNext 60000]
  (emptyState defaultQueue)

/-- Scenario: three tokens are created, tokens 0 and 1 are called, and token
0 is returned to `waiting`: token 0 is `waiting` at position 1, token 1 is
`in_service` at position 2, token 2 is `waiting` at position 3. -/
def mixedSt : QState :=
run [Op.create 0, Op.create 0, Op.create 0, Op.callNext 60000,
  Op.callNext 120000, Op.setStatus 0 Status.waiting 180000]
  (emptyState defaultQueue)

/-- Token 0 of `mixedSt` (waiting at position 1, previously called). -/
def mixedTok : Token :=
{ id := 0, position := 1, status := Status.waiting,
  ts := { created := 0, called := some 60000 }, waitTime := some 1 }

/-- Token 2 of `mixedSt` (waiting at position 3). -/
def mixedTok2 : Token :=
{ id := 2, position := 3, status := Status.waiting, ts := { created := 0 } }

/-- Scenario: five tokens created, all waiting at positions 1..5. -/
def fiveSt : QState :=
run [Op.create 0, Op.create 0, Op.create 0, Op.create 0, Op.create 0]
  (emptyState defaultQueue)

/-- Token 1 of `fiveSt` (waiting at position 2). -/
def fiveTok : Token :=
{ id := 1, position := 2, status := Status.waiting, ts := { created := 0 } }

/-- Scenario: four tokens are created and then all are cancelled (in the
order 3, 2, 1, 0), leaving four cancelled tokens at their historical
positions 1..4 and no active token. -/
def allCancelledSt : QState :=
run [Op.create 0, Op.create 0, Op.create 0, Op.create 0,
  Op.cancel 3 10, Op.cancel 2 10, Op.cancel 1 10, Op.cancel 0 10]
  (emptyState defaultQueue)

/-- Scenario: a single token created at time 0 (waiting at position 1). -/
def createdSt : QState :=
run [Op.create 0] (emptyState defaultQueue)

/-- The token of `createdSt`. -/
def createdTok : Token :=
{ id := 0, position := 1, status := Status.waiting, ts := { created := 0 } }

/-- Scenario: the token of `createdSt` called at minute 7. -/
def calledSt : QState :=
run [Op.create 0, Op.callNext 420000] (emptyState defaultQueue)

/-- The in-service token of `calledSt`. -/
def calledTok : Token :=
{ id := 0, position := 1, status := Status.inService,
  ts := { created := 0, called := some 420000 }, waitTime := some 7 }

/-- The waiting token of `inServiceSt`. -/
def waitingTok : Token :=
{ id := 1, position := 2, status := Status.waiting, ts := { created := 0 } }

/-- Scenario: a queue with capacity 1 already holding one waiting token. -/
def fullSt : QState :=
run [Op.create 0] (emptyState { maxCapacity := some 1 })

/-- The in-service token of `inServiceSt`. -/
def inServiceTok : Token :=
{ id := 0, position := 1, status := Status.inService,
  ts := { created := 0, called := some 60000 }, waitTime := some 1 }

end SmartQueue

namespace SmartQueue

theorem preSaveHook_status (b : Bool) (now : Int) (t : Token) :
    (preSaveHook b now t).status = t.status := by
obtain ⟨i, p, st, w, wt, sv⟩ := t
unfold preSaveHook
split
· cases st <;> rfl
· rfl

theorem preSaveHook_position (b : Bool) (now : Int) (t : Token) :
    (preSaveHook b now t).position = t.position := by
obtain ⟨i, p, st, w, wt, sv⟩ := t
unfold preSaveHook
split
· cases st <;> rfl
· rfl

theorem preSaveHook_id (b : Bool) (now : Int) (t : Token) :
    (preSaveHook b now t).id = t.id := by
obtain ⟨i, p, st, w, wt, sv⟩ := t
unfold preSaveHook
split
· cases st <;> rfl
· rfl

theorem findToken_mem {ts : List Token} {id : Nat} {t : Token}
    (h : findToken ts id = some t) : t ∈ ts ∧ t.id = id := by
refine ⟨List.mem_of_find?_eq_some h, ?_⟩
have := List.find?_some h
simpa using this

theorem applyOp_of_error {op : Op} {s : QState} {e : ApiError}
    (h : runOp op s = Except.error e) : applyOp op s = s := by
unfold applyOp
rw [h]

theorem applyOp_of_ok {op : Op} {s : QState} {p : QState × Token}
    (h : runOp op s = Except.ok p) : applyOp op s = p.1 := by
unfold applyOp
rw [h]

end SmartQueue

namespace SmartQueue

/-- C3 counterexample: the generic status-update operation accepts the
transition `served -> waiting`, which the claim says must fail with a
Conflict error.  On a reachable state whose token 0 is `served`, requesting
`waiting` succeeds and the stored status becomes `waiting`. -/
theorem c3_counterexample :
    statusOf servedSt 0 = some Status.served ∧
    (updateTokenStatus servedSt 0 Status.waiting 180000).isOk = true ∧
    statusOf (applyOp (Op.setStatus 0 Status.waiting 180000) servedSt) 0 =
      some Status.waiting := by
decide

/-- C3 amended: the status-update operation performs no transition-legality
check at all — whenever the token exists, any requested status is applied and
the call succeeds (first conjunct).  Only the dedicated complete and cancel
operations validate the current status: completing a token that is not
`in_service` fails with a 400 error and changes nothing (second conjunct),
and cancelling a token already in a terminal state fails with a 400 error and
changes nothing (third conjunct). -/
theorem c3_amended :
    (∀ (s : QState) (id : Nat) (st : Status) (now : Int) (t : Token),
      findToken s.tokens id = some t →
      ∃ p, updateTokenStatus s id st now = Except.ok p ∧ p.2.status = st) ∧
    (∀ (s : QState) (id : Nat) (now : Int) (t : Token),
      findToken s.tokens id = some t → t.status ≠ Status.inService →
      completeToken s id now =
        Except.error (ApiError.badRequest "Token is not currently in service") ∧
      applyOp (Op.complete id now) s = s) ∧
    (∀ (s : QState) (id : Nat) (now : Int) (t : Token),
      findToken s.tokens id = some t →
      (t.status = Status.served ∨ t.status = Status.cancelled ∨
        t.status = Status.noShow) →
      cancelToken s id now =
        Except.error (ApiError.badRequest "Can only cancel waiting or in-service tokens") ∧
      applyOp (Op.cancel id now) s = s) := by
refine ⟨?_, ?_, ?_⟩
· intro s id st now t h
  unfold updateTokenStatus
  rw [h]
  refine ⟨_, rfl, ?_⟩
  simp only [preSaveHook_status]
  split
  · rfl
  · split
    · rfl
    · split <;> rfl
· intro s id now t h hst
  have hb : (t.status != Status.inService) = true := by
    simpa using hst
  have herr : completeToken s id now =
      Except.error (ApiError.badRequest "Token is not currently in service") := by
    unfold completeToken
    simp only [h]
    rw [if_pos hb]
  exact ⟨herr, applyOp_of_error (by simpa [runOp] using herr)⟩
· intro s id now t h hst
  have hb : (!(t.status == Status.waiting || t.status == Status.inService)) = true := by
    rcases hst with h1 | h1 | h1 <;> rw [h1] <;> rfl
  have herr : cancelToken s id now =
      Except.error (ApiError.badRequest "Can only cancel waiting or in-service tokens") := by
    unfold cancelToken
    simp only [h]
    rw [if_pos hb]
  exact ⟨herr, applyOp_of_error (by simpa [runOp] using herr)⟩

/-- Witness for `c3_amended` at concrete inputs: the served token of
`servedSt` can be set back to `waiting`, cannot be completed, and cannot be
cancelled. -/
theorem c3_amended_witness :
    (∃ p, updateTokenStatus servedSt 0 Status.waiting 180000 = Except.ok p ∧
      p.2.status = Status.waiting) ∧
    (completeToken servedSt 0 180000 =
        Except.error (ApiError.badRequest "Token is not currently in service") ∧
      applyOp (Op.complete 0 180000) servedSt = servedSt) ∧
    (cancelToken servedSt 0 180000 =
        Except.error (ApiError.badRequest "Can only cancel waiting or in-service tokens") ∧
      applyOp (Op.cancel 0 180000) servedSt = servedSt) :=
⟨c3_amended.1 servedSt 0 Status.waiting 180000 servedTok (by decide),
 c3_amended.2.1 servedSt 0 180000 servedTok (by decide) (by decide),
 c3_amended.2.2 servedSt 0 180000 servedTok (by decide) (by decide)⟩

/-- C6: an enqueue against an active queue whose capacity is set (hence at
least 1 by the schema bound) and whose occupancy has reached it is rejected
on both the authenticated and the public path — the capacity-exceeded error
of the spec's Conflict category — and the state is exactly as before the
attempt (no token, no counter change, no position change). -/
theorem c6_capacity (s : QState) (now : Int) (c : Nat)
    (hcap : s.queue.maxCapacity = some c) (hc : 1 ≤ c)
    (hfull : c ≤ s.queue.currentLength) (hact : s.queue.isActive = true) :
    createToken s now =
      Except.error (ApiError.badRequest "Queue is at maximum capacity") ∧
    publicCreateToken s now =
      Except.error (ApiError.badRequest "Queue is currently full") ∧
    applyOp (Op.create now) s = s ∧
    applyOp (Op.publicCreate now) s = s := by
have hcf : capFull s.queue = true := by
  unfold capFull
  rw [hcap]
  simp only [Bool.and_eq_true, bne_iff_ne, ne_eq, decide_eq_true_eq]
  omega
have h1 : createToken s now =
    Except.error (ApiError.badRequest "Queue is at maximum capacity") := by
  unfold createToken
  rw [hact, hcf]
  rfl
have h2 : publicCreateToken s now =
    Except.error (ApiError.badRequest "Queue is currently full") := by
  unfold publicCreateToken
  rw [hact, hcf]
  rfl
exact ⟨h1, h2, applyOp_of_error (by simpa [runOp] using h1),
  applyOp_of_error (by simpa [runOp] using h2)⟩

/-- Witness for `c6_capacity`: a queue with capacity 1 holding one waiting
token rejects both enqueue paths and is left unchanged. -/
theorem c6_capacity_witness :
    createToken fullSt 0 =
      Except.error (ApiError.badRequest "Queue is at maximum capacity") ∧
    publicCreateToken fullSt 0 =
      Except.error (ApiError.badRequest "Queue is currently full") ∧
    applyOp (Op.create 0) fullSt = fullSt ∧
    applyOp (Op.publicCreate 0) fullSt = fullSt :=
c6_capacity fullSt 0 1 (by decide) (by decide) (by decide) (by decide)

end SmartQueue

namespace SmartQueue

/-- C7 counterexample: on a reachable state with token 0 `in_service` at
position 1 and token 1 `waiting` at position 2 (maximum active position 2),
transitioning token 0 back to `waiting` leaves its position at 1 — it is not
re-assigned position 3 (one past the maximum active position) as the claim
requires. -/
theorem c7_counterexample :
    statusOf inServiceSt 0 = some Status.inService ∧
    posOf inServiceSt 0 = some 1 ∧
    maxPos (inServiceSt.tokens.filter activeB) = 2 ∧
    statusOf (applyOp (Op.setStatus 0 Status.waiting 120000) inServiceSt) 0 =
      some Status.waiting ∧
    posOf (applyOp (Op.setStatus 0 Status.waiting 120000) inServiceSt) 0 = some 1 ∧
    posOf (applyOp (Op.setStatus 0 Status.waiting 120000) inServiceSt) 0 ≠
      some (maxPos (inServiceSt.tokens.filter activeB) + 1) := by
decide

/-- C7 amended: at the `in_service -> waiting` transition the status-update
operation keeps the token's previous position unchanged (no re-assignment of
any position takes place); only the status changes, the other tokens are
untouched, and the queue counters are untouched. -/
theorem c7_amended (s : QState) (id : Nat) (now : Int) (t : Token)
    (h : findToken s.tokens id = some t) (hst : t.status = Status.inService) :
    ∃ t', updateTokenStatus s id Status.waiting now =
        Except.ok ({ s with tokens := updateById s.tokens id t' }, t') ∧
      t'.position = t.position ∧ t'.status = Status.waiting ∧ t'.id = t.id ∧
      (applyOp (Op.setStatus id Status.waiting now) s).queue = s.queue := by
refine ⟨{ t with status := Status.waiting }, ?_, rfl, rfl, rfl, ?_⟩
· unfold updateTokenStatus
  simp only [h]
  rw [hst]
  rfl
· have hok : runOp (Op.setStatus id Status.waiting now) s =
      Except.ok ({ s with tokens := updateById s.tokens id { t with status := Status.waiting } },
        { t with status := Status.waiting }) := by
    show updateTokenStatus s id Status.waiting now = _
    unfold updateTokenStatus
    simp only [h]
    rw [hst]
    rfl
  rw [applyOp_of_ok hok]

/-- Witness for `c7_amended`: the in-service token of `inServiceSt` keeps
position 1 when returned to `waiting`. -/
theorem c7_amended_witness :
    ∃ t', updateTokenStatus inServiceSt 0 Status.waiting 120000 =
        Except.ok ({ inServiceSt with tokens := updateById inServiceSt.tokens 0 t' }, t') ∧
      t'.position = inServiceTok.position ∧ t'.status = Status.waiting ∧
      t'.id = inServiceTok.id ∧
      (applyOp (Op.setStatus 0 Status.waiting 120000) inServiceSt).queue =
        inServiceSt.queue :=
c7_amended inServiceSt 0 120000 inServiceTok (by decide) (by decide)

end SmartQueue

namespace SmartQueue

theorem minWaitingStep_skip {u : Token} (acc : Option Token)
    (hw : u.status ≠ Status.waiting) : minWaitingStep acc u = acc := by
unfold minWaitingStep
have hf : (u.status == Status.waiting) = false := by simpa using hw
rw [hf]
simp

theorem minWaitingStep_none {u : Token} (hw : u.status = Status.waiting) :
    minWaitingStep none u = some u := by
unfold minWaitingStep
rw [hw]
simp

theorem minWaitingStep_lt {u b : Token} (hw : u.status = Status.waiting)
    (hlt : u.position < b.position) : minWaitingStep (some b) u = some u := by
unfold minWaitingStep
rw [hw]
simp only [beq_self_eq_true, if_true]
rw [if_pos hlt]

theorem minWaitingStep_ge {u b : Token} (hw : u.status = Status.waiting)
    (hlt : ¬ u.position < b.position) : minWaitingStep (some b) u = some b := by
unfold minWaitingStep
rw [hw]
simp only [beq_self_eq_true, if_true]
rw [if_neg hlt]

theorem minWaiting_go_none :
    ∀ (ts : List Token) (acc : Option Token),
      ts.foldl minWaitingStep acc = none →
      acc = none ∧ ∀ t ∈ ts, t.status ≠ Status.waiting := by
intro ts
induction ts with
| nil => intro acc h; exact ⟨h, by simp⟩
| cons u ts ih =>
    intro acc h
    have h' := ih (minWaitingStep acc u) h
    have hstep := h'.1
    have hu : u.status ≠ Status.waiting ∧ acc = none := by
      by_cases hw : u.status = Status.waiting
      · exfalso
        cases acc with
        | none => rw [minWaitingStep_none hw] at hstep; exact Option.noConfusion hstep
        | some b =>
            by_cases hlt : u.position < b.position
            · rw [minWaitingStep_lt hw hlt] at hstep; exact Option.noConfusion hstep
            · rw [minWaitingStep_ge hw hlt] at hstep; exact Option.noConfusion hstep
      · rw [minWaitingStep_skip acc hw] at hstep
        exact ⟨hw, hstep⟩
    refine ⟨hu.2, ?_⟩
    intro t ht
    rcases List.mem_cons.mp ht with rfl | hmem
    · exact hu.1
    · exact h'.2 t hmem

theorem minWaiting_go_mem :
    ∀ (ts : List Token) (acc : Option Token) (t : Token),
      ts.foldl minWaitingStep acc = some t →
      acc = some t ∨ (t ∈ ts ∧ t.status = Status.waiting) := by
intro ts
induction ts with
| nil => intro acc t h; exact Or.inl h
| cons u ts ih =>
    intro acc t h
    rcases ih (minWaitingStep acc u) t h with hstep | hrest
    · by_cases hw : u.status = Status.waiting
      · cases acc with
        | none =>
            rw [minWaitingStep_none hw] at hstep
            refine Or.inr ⟨?_, ?_⟩
            · rw [← Option.some_inj.mp hstep]; exact List.mem_cons_self u ts
            · rw [← Option.some_inj.mp hstep]; exact hw
        | some b =>
            by_cases hlt : u.position < b.position
            · rw [minWaitingStep_lt hw hlt] at hstep
              refine Or.inr ⟨?_, ?_⟩
              · rw [← Option.some_inj.mp hstep]; exact List.mem_cons_self u ts
              · rw [← Option.some_inj.mp hstep]; exact hw
            · rw [minWaitingStep_ge hw hlt] at hstep
              exact Or.inl hstep
      · rw [minWaitingStep_skip acc hw] at hstep
        exact Or.inl hstep
    · exact Or.inr ⟨List.mem_cons_of_mem u hrest.1, hrest.2⟩

theorem minWaiting_go_min :
    ∀ (ts : List Token) (acc : Option Token) (t : Token),
      ts.foldl minWaitingStep acc = some t →
      (∀ b, acc = some b → t.position ≤ b.position) ∧
      (∀ u ∈ ts, u.status = Status.waiting → t.position ≤ u.position) := by
intro ts
induction ts with
| nil =>
    intro acc t h
    refine ⟨?_, by simp⟩
    intro b hb
    rw [hb] at h
    simp at h
    rw [h]
| cons u ts ih =>
    intro acc t h
    have hstep := ih (minWaitingStep acc u) t h
    have hle : ∀ b, minWaitingStep acc u = some b → t.position ≤ b.position := hstep.1
    have hu : u.status = Status.waiting → t.position ≤ u.position := by
      intro hw
      cases acc with
      | none => exact hle u (minWaitingStep_none hw)
      | some b =>
          by_cases hlt : u.position < b.position
          · exact hle u (minWaitingStep_lt hw hlt)
          · have hb := hle b (minWaitingStep_ge hw hlt)
            omega
    have hacc : ∀ b, acc = some b → t.position ≤ b.position := by
      intro b hb
      subst hb
      by_cases hw : u.status = Status.waiting
      · by_cases hlt : u.position < b.position
        · have := hle u (minWaitingStep_lt hw hlt)
          omega
        · exact hle b (minWaitingStep_ge hw hlt)
      · exact hle b (minWaitingStep_skip (some b) hw)
    refine ⟨hacc, ?_⟩
    intro v hv hw
    rcases List.mem_cons.mp hv with rfl | hmem
    · exact hu hw
    · exact hstep.2 v hmem hw

theorem minWaiting_none {ts : List Token}
    (h : ∀ t ∈ ts, t.status ≠ Status.waiting) : minWaiting ts = none := by
unfold minWaiting
cases hres : ts.foldl minWaitingStep none with
| none => rfl
| some t =>
    exfalso
    rcases minWaiting_go_mem ts none t hres with hacc | hmem
    · exact Option.noConfusion hacc
    · exact h t hmem.1 hmem.2

end SmartQueue

namespace SmartQueue

/-- C9 confirmed: when the queue has no waiting token, call-next fails with
404 "No waiting tokens found" and leaves the state unchanged; otherwise the
selected token is a waiting token of the queue whose position is lowest among
all waiting tokens, it is advanced to `in_service` (keeping its id and
position), and the queue document is untouched. -/
theorem c9_callNext (s : QState) (now : Int) :
    ((∀ t ∈ s.tokens, t.status ≠ Status.waiting) →
      callNextToken s now =
        Except.error (ApiError.notFound "No waiting tokens found") ∧
      applyOp (Op.callNext now) s = s) ∧
    (∀ u, minWaiting s.tokens = some u →
      u ∈ s.tokens ∧ u.status = Status.waiting ∧
      (∀ v ∈ s.tokens, v.status = Status.waiting → u.position ≤ v.position) ∧
      ∃ t', callNextToken s now =
          Except.ok ({ s with tokens := updateById s.tokens u.id t' }, t') ∧
        t'.id = u.id ∧ t'.position = u.position ∧ t'.status = Status.inService ∧
        (applyOp (Op.callNext now) s).queue = s.queue) := by
constructor
· intro h
  have herr : callNextToken s now =
      Except.error (ApiError.notFound "No waiting tokens found") := by
    unfold callNextToken
    rw [minWaiting_none h]
  exact ⟨herr, applyOp_of_error (by simpa [runOp] using herr)⟩
· intro u hmw
  have hmem : u ∈ s.tokens ∧ u.status = Status.waiting := by
    rcases minWaiting_go_mem s.tokens none u hmw with hacc | hm
    · exact Option.noConfusion hacc
    · exact hm
  have hmin := (minWaiting_go_min s.tokens none u hmw).2
  refine ⟨hmem.1, hmem.2, hmin, ?_⟩
  have hok : callNextToken s now = Except.ok ({ s with tokens := updateById s.tokens u.id (preSaveHook true now { u with status := Status.inService }) }, preSaveHook true now { u with status := Status.inService }) := by
    unfold callNextToken
    rw [hmw]
  refine ⟨preSaveHook true now { u with status := Status.inService }, hok,
    preSaveHook_id _ _ _, preSaveHook_position _ _ _, preSaveHook_status _ _ _, ?_⟩
  rw [applyOp_of_ok (by simpa [runOp] using hok)]

/-- Witness for `c9_callNext`: an empty queue yields the 404 branch, and on
`inServiceSt` (token 1 waiting at position 2 is the only waiting token) the
waiting token of lowest position is selected and advanced. -/
theorem c9_callNext_witness :
    (callNextToken (emptyState defaultQueue) 0 =
        Except.error (ApiError.notFound "No waiting tokens found") ∧
      applyOp (Op.callNext 0) (emptyState defaultQueue) = emptyState defaultQueue) ∧
    (waitingTok ∈ inServiceSt.tokens ∧ waitingTok.status = Status.waiting ∧
      (∀ v ∈ inServiceSt.tokens, v.status = Status.waiting →
        waitingTok.position ≤ v.position) ∧
      ∃ t', callNextToken inServiceSt 120000 =
          Except.ok ({ inServiceSt with
            tokens := updateById inServiceSt.tokens waitingTok.id t' }, t') ∧
        t'.id = waitingTok.id ∧ t'.position = waitingTok.position ∧
        t'.status = Status.inService ∧
        (applyOp (Op.callNext 120000) inServiceSt).queue = inServiceSt.queue) :=
⟨(c9_callNext (emptyState defaultQueue) 0).1 (by decide),
 (c9_callNext inServiceSt 120000).2 waitingTok (by decide)⟩

end SmartQueue

namespace SmartQueue

/-- C10 counterexample: `waitTime` is not immutable once set.  A token
created at time 0 and called at minute 7 gets `waitTime = 7`; after the legal
transitions `in_service -> waiting` (return) and a second call at minute 20 —
both edges of the state machine — the save hook recomputes `waitTime` to 20. -/
theorem c10_counterexample :
    (findToken (run [Op.create 0, Op.callNext 420000]
        (emptyState defaultQueue)).tokens 0).map Token.waitTime =
      some (some 7) ∧
    (findToken (run [Op.create 0, Op.callNext 420000,
        Op.setStatus 0 Status.waiting 600000, Op.callNext 1200000]
        (emptyState defaultQueue)).tokens 0).map Token.waitTime =
      some (some 20) := by
decide

/-- C10 amended: `waitTime` is the called-minus-created difference rounded to
the nearest whole minute and is (re)computed at every transition into
`in_service` (via call-next or the status-update operation); `serviceTime` is
the completed-minus-called difference rounded to the nearest whole minute and
is computed at every transition into `served` (via complete or the
status-update operation).  The values are immutable only while the token does
not re-enter those states. -/
theorem c10_amended :
    (∀ (s : QState) (now : Int) (u : Token), minWaiting s.tokens = some u →
      ∃ p, callNextToken s now = Except.ok p ∧
        p.2.ts.called = some now ∧
        p.2.waitTime = some (roundMinutes (now - u.ts.created))) ∧
    (∀ (s : QState) (id : Nat) (now : Int) (t : Token),
      findToken s.tokens id = some t → t.status = Status.waiting →
      ∃ p, updateTokenStatus s id Status.inService now = Except.ok p ∧
        p.2.ts.called = some now ∧
        p.2.waitTime = some (roundMinutes (now - t.ts.created))) ∧
    (∀ (s : QState) (id : Nat) (now c : Int) (t : Token),
      findToken s.tokens id = some t → t.status = Status.inService →
      t.ts.called = some c →
      ∃ p, completeToken s id now = Except.ok p ∧
        p.2.ts.completed = some now ∧
        p.2.serviceTime = some (roundMinutes (now - c))) ∧
    (∀ (s : QState) (id : Nat) (now c : Int) (t : Token),
      findToken s.tokens id = some t → t.status = Status.inService →
      t.ts.called = some c →
      ∃ p, updateTokenStatus s id Status.served now = Except.ok p ∧
        p.2.ts.completed = some now ∧
        p.2.serviceTime = some (roundMinutes (now - c))) := by
refine ⟨?_, ?_, ?_, ?_⟩
· intro s now u hmw
  refine ⟨_, by unfold callNextToken; rw [hmw], ?_, ?_⟩ <;> rfl
· intro s id now t h hst
  unfold updateTokenStatus
  simp only [h]
  rw [hst]
  exact ⟨_, rfl, rfl, rfl⟩
· intro s id now c t h hst hc
  unfold completeToken
  simp only [h]
  rw [hst]
  exact ⟨_, rfl, by simp [preSaveHook], by simp [preSaveHook, hc]⟩
· intro s id now c t h hst hc
  unfold updateTokenStatus
  simp only [h]
  rw [hst]
  exact ⟨_, rfl, by simp [preSaveHook], by simp [preSaveHook, hc]⟩

end SmartQueue

namespace SmartQueue

/-- Witness for `c10_amended`: the spec's example — created at time 0, called
at minute 7, completed at minute 12 — yields `waitTime = 7` and
`serviceTime = 5`. -/
theorem c10_amended_witness :
    (∃ p, callNextToken createdSt 420000 = Except.ok p ∧
      p.2.ts.called = some 420000 ∧
      p.2.waitTime = some (roundMinutes (420000 - createdTok.ts.created))) ∧
    (∃ p, completeToken calledSt 0 720000 = Except.ok p ∧
      p.2.ts.completed = some 720000 ∧
      p.2.serviceTime = some (roundMinutes (720000 - 420000))) ∧
    roundMinutes (420000 - 0) = 7 ∧ roundMinutes (720000 - 420000) = 5 :=
⟨c10_amended.1 createdSt 420000 createdTok (by decide),
 c10_amended.2.2.1 calledSt 0 720000 420000 calledTok (by decide) (by decide)
   (by decide),
 by decide, by decide⟩

end SmartQueue

namespace SmartQueue

/-- C8 counterexample: the two enqueue paths do not compute the same next
position.  On a reachable queue whose four tokens are all cancelled (held at
historical positions 1..4, no active token), the authenticated path assigns
position 1 (maximum over active tokens) while the public path assigns
position 5 (maximum over all tokens — its lookup carries no status filter). -/
theorem c8_counterexample :
    allCancelledSt.tokens.filter activeB = [] ∧
    (okToken (createToken allCancelledSt 20)).map Token.position = some 1 ∧
    (okToken (publicCreateToken allCancelledSt 20)).map Token.position = some 5 ∧
    (okToken (createToken allCancelledSt 20)).map Token.position ≠
      (okToken (publicCreateToken allCancelledSt 20)).map Token.position := by
decide

/-- C8 amended: the two paths perform the same precondition checks (queue
active, queue under capacity) with pairwise-corresponding rejections, but
they compute the next position differently — the authenticated path maximises
over active tokens only, the public path over all tokens of the queue.
Whenever those two maxima coincide (in particular when every token of the
queue is active), the two paths produce identical results. -/
theorem c8_amended (s : QState) (now : Int)
    (h : maxPos (s.tokens.filter activeB) = maxPos s.tokens) :
    (s.queue.isActive = false →
      createToken s now =
        Except.error (ApiError.notFound "Queue not found or inactive") ∧
      publicCreateToken s now =
        Except.error (ApiError.badRequest "Queue is currently not accepting new tokens")) ∧
    (s.queue.isActive = true → capFull s.queue = true →
      createToken s now =
        Except.error (ApiError.badRequest "Queue is at maximum capacity") ∧
      publicCreateToken s now =
        Except.error (ApiError.badRequest "Queue is currently full")) ∧
    (s.queue.isActive = true → capFull s.queue = false →
      ∃ p, createToken s now = Except.ok p ∧
        publicCreateToken s now = Except.ok p) := by
refine ⟨?_, ?_, ?_⟩
· intro hact
  constructor
  · unfold createToken
    rw [hact]
    rfl
  · unfold publicCreateToken
    rw [hact]
    rfl
· intro hact hcf
  constructor
  · unfold createToken
    rw [hact, hcf]
    rfl
  · unfold publicCreateToken
    rw [hact, hcf]
    rfl
· intro hact hcf
  unfold createToken publicCreateToken
  rw [hact, hcf, h]
  exact ⟨_, rfl, rfl⟩

/-- Witness for `c8_amended`: on a queue holding one waiting token (where the
active maximum equals the overall maximum) the two enqueue paths return
identical results. -/
theorem c8_amended_witness :
    ∃ p, createToken createdSt 99 = Except.ok p ∧
      publicCreateToken createdSt 99 = Except.ok p :=
(c8_amended createdSt 99 (by decide)).2.2 (by decide) (by decide)

end SmartQueue

namespace SmartQueue

/-- C4 counterexample: the reorder shift touches only `waiting` tokens, not
all active tokens.  On a reachable state with token 0 `in_service` at
position 1 and tokens 1, 2 `waiting` at positions 2, 3, moving token 2 from
position 3 to position 1 must (per the claim) increment every other active
token with position in [1, 3) — in particular token 0 to position 2 — but the
code leaves token 0 at position 1 (and token 2 also lands on position 1). -/
theorem c4_counterexample :
    statusOf inService3St 0 = some Status.inService ∧
    posOf inService3St 0 = some 1 ∧
    statusOf inService3St 2 = some Status.waiting ∧
    posOf inService3St 2 = some 3 ∧
    (okState (updateTokenPosition inService3St 2 1)).map (fun s' => posOf s' 0) =
      some (some 1) ∧
    (okState (updateTokenPosition inService3St 2 1)).map (fun s' => posOf s' 0) ≠
      some (some 2) ∧
    (okState (updateTokenPosition inService3St 2 1)).map (fun s' => posOf s' 2) =
      some (some 1) := by
decide

/-- C4 amended: for a reorder of a waiting token from position `old` to a
positive position `new`, every other **waiting** token (not every active
token — `in_service` tokens are never shifted) with position in `(old, new]`
is decremented when `new > old`, every other waiting token with position in
`[new, old)` is incremented when `new < old`, the moved token's position
becomes exactly `new`, and every other token — including every `in_service`
token — is unchanged.  The queue document is untouched. -/
theorem c4_amended (s : QState) (id newPosition : Nat) (t : Token)
    (h : findToken s.tokens id = some t) (hw : t.status = Status.waiting)
    (hpos : 1 ≤ newPosition) :
    ∃ s', updateTokenPosition s id newPosition =
        Except.ok (s', { t with position := newPosition }) ∧
      s'.queue = s.queue ∧ s'.nextId = s.nextId ∧
      s'.tokens.length = s.tokens.length ∧
      ∀ (i : Nat) (hi : i < s.tokens.length) (hi' : i < s'.tokens.length),
        ((s.tokens.get ⟨i, hi⟩).id = id →
          s'.tokens.get ⟨i, hi'⟩ = { t with position := newPosition }) ∧
        ((s.tokens.get ⟨i, hi⟩).id ≠ id →
          ((s.tokens.get ⟨i, hi⟩).status = Status.waiting ∧
              t.position < (s.tokens.get ⟨i, hi⟩).position ∧
              (s.tokens.get ⟨i, hi⟩).position ≤ newPosition →
            s'.tokens.get ⟨i, hi'⟩ =
              { s.tokens.get ⟨i, hi⟩ with
                  position := (s.tokens.get ⟨i, hi⟩).position - 1 }) ∧
          ((s.tokens.get ⟨i, hi⟩).status = Status.waiting ∧
              newPosition ≤ (s.tokens.get ⟨i, hi⟩).position ∧
              (s.tokens.get ⟨i, hi⟩).position < t.position →
            s'.tokens.get ⟨i, hi'⟩ =
              { s.tokens.get ⟨i, hi⟩ with
                  position := (s.tokens.get ⟨i, hi⟩).position + 1 }) ∧
          ((s.tokens.get ⟨i, hi⟩).status ≠ Status.waiting ∨
              (¬(t.position < (s.tokens.get ⟨i, hi⟩).position ∧
                  (s.tokens.get ⟨i, hi⟩).position ≤ newPosition) ∧
               ¬(newPosition ≤ (s.tokens.get ⟨i, hi⟩).position ∧
                  (s.tokens.get ⟨i, hi⟩).position < t.position)) →
            s'.tokens.get ⟨i, hi'⟩ = s.tokens.get ⟨i, hi⟩)) := by
have hok : updateTokenPosition s id newPosition =
    Except.ok ({ s with tokens := updateById (shiftOthers s.tokens id t.position newPosition) id { t with position := newPosition } }, { t with position := newPosition }) := by
  unfold updateTokenPosition
  rw [if_neg (by omega)]
  unfold reorderCore
  simp only [h]
  rw [hw]
  rfl
refine ⟨_, hok, rfl, rfl, ?_, ?_⟩
· unfold updateById shiftOthers
  split <;> simp
· intro i hi hi'
  simp only [List.get_eq_getElem]
  by_cases hgt : newPosition > t.position
  · simp only [updateById, shiftOthers, shiftDown, if_pos hgt, List.getElem_map]
    by_cases hid : (s.tokens[i]).id = id
    · exact ⟨fun _ => by simp [hid], fun hne => absurd hid hne⟩
    · have hne : ((s.tokens[i]).id != id) = true := by simpa using hid
      refine ⟨fun hc => absurd hc hid, fun _ => ⟨?_, ?_, ?_⟩⟩
      · rintro ⟨hst, hlo, hhi⟩
        have hcond : ((s.tokens[i]).id != id && (s.tokens[i]).status == Status.waiting &&
            decide (t.position < (s.tokens[i]).position) &&
            decide ((s.tokens[i]).position ≤ newPosition)) = true := by
          simp [hne, hst, hlo, hhi]
        rw [if_pos hcond]
        rw [if_neg (by simpa using hid)]
      · rintro ⟨hst, hlo, hhi⟩
        exfalso
        omega
      · intro hcase
        have hcond : ¬ (((s.tokens[i]).id != id && (s.tokens[i]).status == Status.waiting &&
            decide (t.position < (s.tokens[i]).position) &&
            decide ((s.tokens[i]).position ≤ newPosition)) = true) := by
          simp only [Bool.and_eq_true, bne_iff_ne, beq_iff_eq, decide_eq_true_eq, ne_eq]
          rintro ⟨⟨⟨-, hstw⟩, hlo⟩, hhi⟩
          rcases hcase with hst | ⟨hnr1, hnr2⟩
          · exact hst hstw
          · exact hnr1 ⟨hlo, hhi⟩
        rw [if_neg hcond]
        rw [if_neg (by simpa using hid)]
  · simp only [updateById, shiftOthers, shiftUp, if_neg hgt, List.getElem_map]
    by_cases hid : (s.tokens[i]).id = id
    · exact ⟨fun _ => by simp [hid], fun hne => absurd hid hne⟩
    · have hne : ((s.tokens[i]).id != id) = true := by simpa using hid
      refine ⟨fun hc => absurd hc hid, fun _ => ⟨?_, ?_, ?_⟩⟩
      · rintro ⟨hst, hlo, hhi⟩
        exfalso
        omega
      · rintro ⟨hst, hlo, hhi⟩
        have hcond : ((s.tokens[i]).id != id && (s.tokens[i]).status == Status.waiting &&
            decide (newPosition ≤ (s.tokens[i]).position) &&
            decide ((s.tokens[i]).position < t.position)) = true := by
          simp [hne, hst, hlo, hhi]
        rw [if_pos hcond]
        rw [if_neg (by simpa using hid)]
      · intro hcase
        have hcond : ¬ (((s.tokens[i]).id != id && (s.tokens[i]).status == Status.waiting &&
            decide (newPosition ≤ (s.tokens[i]).position) &&
            decide ((s.tokens[i]).position < t.position)) = true) := by
          simp only [Bool.and_eq_true, bne_iff_ne, beq_iff_eq, decide_eq_true_eq, ne_eq]
          rintro ⟨⟨⟨-, hstw⟩, hlo⟩, hhi⟩
          rcases hcase with hst | ⟨hnr1, hnr2⟩
          · exact hst hstw
          · exact hnr2 ⟨hlo, hhi⟩
        rw [if_neg hcond]
        rw [if_neg (by simpa using hid)]

end SmartQueue

namespace SmartQueue

/-- Witness for `c4_amended` on the spec's example: active tokens at
positions [1,2,3,4,5] (ids 0..4, all waiting), moving the token at position 2
to position 4 yields final positions 1, 4, 2, 3, 5 respectively. -/
theorem c4_amended_witness :
    (1 ≤ 4 ∧ ∃ s', updateTokenPosition fiveSt 1 4 =
      Except.ok (s', { fiveTok with position := 4 })) ∧
    (okState (updateTokenPosition fiveSt 1 4)).map
        (fun s' => (posOf s' 0, posOf s' 1, posOf s' 2, posOf s' 3, posOf s' 4)) =
      some (some 1, some 4, some 2, some 3, some 5) :=
⟨⟨by decide, (c4_amended fiveSt 1 4 fiveTok (by decide) (by decide)
    (by decide)).elim (fun s' hs' => ⟨s', hs'.1⟩)⟩, by decide⟩

end SmartQueue

namespace SmartQueue

/-- C5 counterexample: (a) the cancel shift touches only `waiting` tokens —
on a reachable state with token 0 `waiting` at position 1, token 1
`in_service` at position 2 and token 2 `waiting` at position 3, cancelling
token 0 leaves the in-service token at position 2 instead of decrementing it
to 1; (b) a `no_show` transition of a waiting token updates no counter at
all: `totalCancelled` stays 0 (claim: incremented) and occupancy stays 1
(claim: decremented), though the claim says it updates the counters exactly
like a cancellation. -/
theorem c5_counterexample :
    (statusOf mixedSt 0 = some Status.waiting ∧ posOf mixedSt 0 = some 1 ∧
      statusOf mixedSt 1 = some Status.inService ∧ posOf mixedSt 1 = some 2 ∧
      (okState (cancelToken mixedSt 0 240000)).map (fun s' => posOf s' 1) =
        some (some 2) ∧
      (okState (cancelToken mixedSt 0 240000)).map (fun s' => posOf s' 1) ≠
        some (some 1)) ∧
    (statusOf createdSt 0 = some Status.waiting ∧
      createdSt.queue.currentLength = 1 ∧
      createdSt.queue.totalCancelled = 0 ∧
      (applyOp (Op.setStatus 0 Status.noShow 60000) createdSt).queue.totalCancelled = 0 ∧
      (applyOp (Op.setStatus 0 Status.noShow 60000) createdSt).queue.currentLength = 1 ∧
      statusOf (applyOp (Op.setStatus 0 Status.noShow 60000) createdSt) 0 =
        some Status.noShow) := by
decide

/-- C5 amended: cancelling (via the cancel operation) a token that was
`waiting` stamps its cancelled timestamp, keeps its position, increments
`totalCancelled`, decrements occupancy by 1, and decrements by 1 the position
of every **waiting** token with a greater position — `in_service` tokens and
terminal tokens are never shifted (first conjunct).  A `no_show` transition
(only reachable through the status-update operation) shifts no positions and
updates no queue counters at all; it only sets the token's status and stamps
its cancelled timestamp (second conjunct). -/
theorem c5_amended :
    (∀ (s : QState) (id : Nat) (now : Int) (t : Token),
      findToken s.tokens id = some t → t.status = Status.waiting →
      ∃ s' t', cancelToken s id now = Except.ok (s', t') ∧
        t'.status = Status.cancelled ∧ t'.ts.cancelled = some now ∧
        t'.position = t.position ∧ t'.id = t.id ∧
        s'.queue.totalCancelled = s.queue.totalCancelled + 1 ∧
        s'.queue.currentLength = s.queue.currentLength - 1 ∧
        s'.queue.totalServed = s.queue.totalServed ∧
        s'.queue.isActive = s.queue.isActive ∧
        s'.queue.maxCapacity = s.queue.maxCapacity ∧
        s'.tokens.length = s.tokens.length ∧
        ∀ (i : Nat) (hi : i < s.tokens.length) (hi' : i < s'.tokens.length),
          ((s.tokens.get ⟨i, hi⟩).id = id → s'.tokens.get ⟨i, hi'⟩ = t') ∧
          ((s.tokens.get ⟨i, hi⟩).id ≠ id →
            ((s.tokens.get ⟨i, hi⟩).status = Status.waiting ∧
                t.position < (s.tokens.get ⟨i, hi⟩).position →
              s'.tokens.get ⟨i, hi'⟩ =
                { s.tokens.get ⟨i, hi⟩ with
                    position := (s.tokens.get ⟨i, hi⟩).position - 1 }) ∧
            ((s.tokens.get ⟨i, hi⟩).status ≠ Status.waiting ∨
                ¬ t.position < (s.tokens.get ⟨i, hi⟩).position →
              s'.tokens.get ⟨i, hi'⟩ = s.tokens.get ⟨i, hi⟩))) ∧
    (∀ (s : QState) (id : Nat) (now : Int) (t : Token),
      findToken s.tokens id = some t → t.status = Status.waiting →
      ∃ p, updateTokenStatus s id Status.noShow now = Except.ok p ∧
        p.1.queue = s.queue ∧
        p.2.status = Status.noShow ∧ p.2.position = t.position ∧
        p.2.ts.cancelled = some now ∧
        p.1.tokens.length = s.tokens.length ∧
        ∀ (i : Nat) (hi : i < s.tokens.length) (hi' : i < p.1.tokens.length),
          (s.tokens.get ⟨i, hi⟩).id ≠ id →
            p.1.tokens.get ⟨i, hi'⟩ = s.tokens.get ⟨i, hi⟩) := by
constructor
· intro s id now t h hw
  have hok : cancelToken s id now = Except.ok ({ s with tokens := (updateById s.tokens id (preSaveHook true now { t with status := Status.cancelled })).map (fun u => if u.status == Status.waiting && decide (t.position < u.position) then { u with position := u.position - 1 } else u), queue := { s.queue with totalCancelled := s.queue.totalCancelled + 1, currentLength := s.queue.currentLength - 1 } }, preSaveHook true now { t with status := Status.cancelled }) := by
    unfold cancelToken
    simp only [h]
    rw [hw]
    rfl
  refine ⟨_, _, hok, preSaveHook_status _ _ _, by simp [preSaveHook],
    preSaveHook_position _ _ _, preSaveHook_id _ _ _, rfl, rfl, rfl, rfl, rfl,
    by simp [updateById], ?_⟩
  intro i hi hi'
  simp only [List.get_eq_getElem, List.getElem_map, updateById, beq_iff_eq]
  by_cases hid : (s.tokens[i]).id = id
  · rw [if_pos hid]
    refine ⟨fun _ => ?_, fun hne => absurd hid hne⟩
    rw [if_neg (by simp [preSaveHook_status])]
  · rw [if_neg hid]
    refine ⟨fun hc => absurd hc hid, fun _ => ⟨?_, ?_⟩⟩
    · rintro ⟨hst, hlt⟩
      rw [if_pos (by simp [hst, hlt])]
    · intro hcase
      have hcond : ¬ (((s.tokens[i]).status == Status.waiting &&
          decide (t.position < (s.tokens[i]).position)) = true) := by
        simp only [Bool.and_eq_true, beq_iff_eq, decide_eq_true_eq]
        rintro ⟨hstw, hlt⟩
        rcases hcase with hst | hnl
        · exact hst hstw
        · exact hnl hlt
      rw [if_neg hcond]
· intro s id now t h hw
  unfold updateTokenStatus
  simp only [h]
  rw [hw]
  refine ⟨_, rfl, rfl, rfl, rfl, by simp [preSaveHook], by simp [updateById], ?_⟩
  intro i hi hi' hid
  simp only [List.get_eq_getElem, List.getElem_map, updateById]
  rw [if_neg (by simpa using hid)]

end SmartQueue

namespace SmartQueue

/-- Witness for `c5_amended`: cancelling the waiting token at position 1 of
`mixedSt` succeeds (the waiting token at position 3 moves to 2, the
in-service token stays at 2), and a `no_show` transition of the waiting token
2 leaves the queue document untouched. -/
theorem c5_amended_witness :
    (∃ s' t', cancelToken mixedSt 0 240000 = Except.ok (s', t')) ∧
    (okState (cancelToken mixedSt 0 240000)).map
        (fun s' => (posOf s' 1, posOf s' 2, statusOf s' 1)) =
      some (some 2, some 2, some Status.inService) ∧
    (∃ p, updateTokenStatus mixedSt 2 Status.noShow 240000 = Except.ok p ∧
      p.1.queue = mixedSt.queue) :=
⟨(c5_amended.1 mixedSt 0 240000 mixedTok (by decide) (by decide)).elim
    (fun s' hs' => hs'.elim (fun t' ht' => ⟨s', t', ht'.1⟩)),
 by decide,
 (c5_amended.2 mixedSt 2 240000 mixedTok2 (by decide) (by decide)).elim
    (fun p hp => ⟨p, hp.1, hp.2.1⟩)⟩

end SmartQueue

namespace SmartQueue

theorem numActive_eq_countP (s : QState) :
    numActive s = s.tokens.countP activeB := by
unfold numActive activeToks
rw [List.countP_eq_length_filter]

theorem erase_ids_ne {ts : List Token} {t : Token}
    (hnd : (ts.map Token.id).Nodup) (hm : t ∈ ts) :
    ∀ u ∈ ts.erase t, u.id ≠ t.id := by
intro u hu hid
have hp : ts.Perm (t :: ts.erase t) := List.perm_cons_erase hm
have hpids : (ts.map Token.id).Perm (t.id :: (ts.erase t).map Token.id) := by
  simpa using hp.map Token.id
have hnd' : (t.id :: (ts.erase t).map Token.id).Nodup :=
  (hpids.nodup_iff).mp hnd
have : t.id ∉ (ts.erase t).map Token.id := (List.nodup_cons.mp hnd').1
exact this (hid ▸ List.mem_map_of_mem Token.id hu)

theorem updateById_perm {ts : List Token} {t : Token} (t' : Token)
    (hnd : (ts.map Token.id).Nodup) (hm : t ∈ ts) :
    (updateById ts t.id t').Perm (t' :: ts.erase t) := by
have hp : ts.Perm (t :: ts.erase t) := List.perm_cons_erase hm
have hmap := hp.map (fun u => if u.id == t.id then t' else u)
have hrest : (ts.erase t).map (fun u => if u.id == t.id then t' else u) = ts.erase t := by
  conv_rhs => rw [← List.map_id (ts.erase t)]
  apply List.map_congr_left
  intro u hu
  rw [if_neg (by simpa using erase_ids_ne hnd hm u hu)]
  rfl
unfold updateById
rw [List.map_cons] at hmap
rw [if_pos (by simp)] at hmap
rw [hrest] at hmap
exact hmap

theorem countP_updateById {ts : List Token} {t : Token} (t' : Token)
    (hnd : (ts.map Token.id).Nodup) (hm : t ∈ ts) :
    (updateById ts t.id t').countP activeB + (if activeB t then 1 else 0) =
      ts.countP activeB + (if activeB t' then 1 else 0) := by
have h1 := (updateById_perm t' hnd hm).countP_eq activeB
have h2 := (List.perm_cons_erase hm).countP_eq activeB
rw [h1, h2]
rw [List.countP_cons, List.countP_cons]
by_cases ht : activeB t <;> by_cases ht' : activeB t' <;> simp [ht, ht']

theorem countP_map_status {ts : List Token} {g : Token → Token}
    (hg : ∀ u, (g u).status = u.status) :
    (ts.map g).countP activeB = ts.countP activeB := by
rw [List.countP_map]
apply List.countP_congr
intro u _
simp [Function.comp, activeB, hg]

theorem map_ids_of_id_preserving {ts : List Token} {g : Token → Token}
    (hg : ∀ u, (g u).id = u.id) :
    (ts.map g).map Token.id = ts.map Token.id := by
rw [List.map_map]
apply List.map_congr_left
intro u _
simp [Function.comp, hg]

theorem shiftDown_id (a b c : Nat) (u : Token) : (shiftDown a b c u).id = u.id := by
unfold shiftDown
split <;> rfl

theorem shiftUp_id (a b c : Nat) (u : Token) : (shiftUp a b c u).id = u.id := by
unfold shiftUp
split <;> rfl

theorem shiftDown_status (a b c : Nat) (u : Token) :
    (shiftDown a b c u).status = u.status := by
unfold shiftDown
split <;> rfl

theorem shiftUp_status (a b c : Nat) (u : Token) :
    (shiftUp a b c u).status = u.status := by
unfold shiftUp
split <;> rfl

theorem shiftDown_self {a b c : Nat} {u : Token} (h : u.id = a) :
    shiftDown a b c u = u := by
unfold shiftDown
rw [if_neg (by simp [h])]

theorem shiftUp_self {a b c : Nat} {u : Token} (h : u.id = a) :
    shiftUp a b c u = u := by
unfold shiftUp
rw [if_neg (by simp [h])]

theorem cancelShift_id (p : Nat) (u : Token) : (cancelShift p u).id = u.id := by
unfold cancelShift
split <;> rfl

theorem cancelShift_status (p : Nat) (u : Token) :
    (cancelShift p u).status = u.status := by
unfold cancelShift
split <;> rfl

end SmartQueue

namespace SmartQueue

theorem updateTokenStatus_ok {s : QState} {id : Nat} {t : Token}
    (st : Status) (now : Int) (h : findToken s.tokens id = some t) :
    ∃ t3, updateTokenStatus s id st now = Except.ok ({ s with tokens := updateById s.tokens id t3, queue := updStatusQueue s.queue st t.status }, t3) ∧
      t3.status = st ∧ t3.position = t.position ∧ t3.id = t.id := by
unfold updateTokenStatus
simp only [h]
refine ⟨_, rfl, ?_, ?_, ?_⟩
· rw [preSaveHook_status]
  split
  · rfl
  · split
    · rfl
    · split <;> rfl
· rw [preSaveHook_position]
  split
  · rfl
  · split
    · rfl
    · split <;> rfl
· rw [preSaveHook_id]
  split
  · rfl
  · split
    · rfl
    · split <;> rfl

/-- C2 counterexample: the occupancy invariant is broken by a `no_show`
transition.  On a reachable queue holding one waiting token (occupancy
counter 1, one active token), transitioning the token to `no_show` leaves the
counter at 1 while no token is active any more; `totalCancelled` stays 0 —
the counters are not updated like a cancellation. -/
theorem c2_counterexample :
    occInv createdSt ∧
    statusOf (applyOp (Op.setStatus 0 Status.noShow 60000) createdSt) 0 =
      some Status.noShow ∧
    (applyOp (Op.setStatus 0 Status.noShow 60000) createdSt).queue.currentLength = 1 ∧
    numActive (applyOp (Op.setStatus 0 Status.noShow 60000) createdSt) = 0 ∧
    (applyOp (Op.setStatus 0 Status.noShow 60000) createdSt).queue.totalCancelled = 0 ∧
    ¬ occInv (applyOp (Op.setStatus 0 Status.noShow 60000) createdSt) := by
decide

end SmartQueue

namespace SmartQueue

theorem mem_map_of_fix {ts : List Token} {g : Token → Token} {t : Token}
    (hm : t ∈ ts) (hfix : g t = t) : t ∈ ts.map g :=
hfix ▸ List.mem_map_of_mem g hm

theorem applyOp_eq_state {op : Op} {s s' : QState} {t' : Token}
    (h : runOp op s = Except.ok (s', t')) : applyOp op s = s' := by
unfold applyOp
rw [h]

theorem updateById_ids {ts : List Token} {id : Nat} {t' : Token}
    (h : t'.id = id) : (updateById ts id t').map Token.id = ts.map Token.id := by
unfold updateById
apply map_ids_of_id_preserving
intro u
by_cases hb : (u.id == id) = true
· rw [if_pos hb]
  rw [h]
  exact (beq_iff_eq.mp hb).symm
· rw [if_neg hb]

theorem ids_preserved {ts ts' : List Token} {N : Nat}
    (hids : ts'.map Token.id = ts.map Token.id)
    (hnd : (ts.map Token.id).Nodup) (hlt : ∀ t ∈ ts, t.id < N) :
    (ts'.map Token.id).Nodup ∧ ∀ t ∈ ts', t.id < N := by
constructor
· rw [hids]
  exact hnd
· intro u hu
  have h1 : u.id ∈ ts'.map Token.id := List.mem_map_of_mem _ hu
  rw [hids] at h1
  obtain ⟨v, hv, hvid⟩ := List.mem_map.mp h1
  rw [← hvid]
  exact hlt v hv

theorem idsOk_append {ts : List Token} {tok : Token} {N : Nat}
    (hnd : (ts.map Token.id).Nodup) (hlt : ∀ t ∈ ts, t.id < N)
    (htok : tok.id = N) :
    ((ts ++ [tok]).map Token.id).Nodup ∧ ∀ t ∈ ts ++ [tok], t.id < N + 1 := by
constructor
· rw [List.map_append]
  refine hnd.append (List.nodup_singleton _) ?_
  intro a ha hb
  simp only [List.map_cons, List.map_nil, List.mem_singleton] at hb
  obtain ⟨v, hv, hvid⟩ := List.mem_map.mp ha
  have h2 := hlt v hv
  rw [htok] at hb
  omega
· intro u hu
  rcases List.mem_append.mp hu with h | h
  · exact Nat.lt_succ_of_lt (hlt u h)
  · rw [List.mem_singleton] at h
    rw [h, htok]
    exact Nat.lt_succ_self N

/-- One-step preservation: on a state whose occupancy counter is correct and
whose token ids are distinct and below the fresh-id source, every admissible
request (enqueue on either path, call-next, complete, cancel, reorder, and a
status update along a legal non-`no_show` edge) keeps all three facts. -/
theorem occ_step (s : QState) (op : Op) (hinv : occInv s)
    (hnd : (s.tokens.map Token.id).Nodup)
    (hlt : ∀ t ∈ s.tokens, t.id < s.nextId)
    (hsafe : occSafe op s) : occWF (applyOp op s) := by
cases op with
| create now =>
    by_cases hact : s.queue.isActive = true
    · by_cases hcf : capFull s.queue = true
      · have herr : createToken s now =
            Except.error (ApiError.badRequest "Queue is at maximum capacity") := by
          unfold createToken
          rw [hact, hcf]
          rfl
        rw [applyOp_of_error (by simpa [runOp] using herr)]
        exact ⟨hinv, hnd, hlt⟩
      · have hcf' : capFull s.queue = false := by simpa using hcf
        have hok : createToken s now = Except.ok ({ queue := { s.queue with currentLength := s.queue.currentLength + 1 }, tokens := s.tokens ++ [{ id := s.nextId, position := maxPos (s.tokens.filter activeB) + 1, status := Status.waiting, ts := { created := now } }], nextId := s.nextId + 1 }, { id := s.nextId, position := maxPos (s.tokens.filter activeB) + 1, status := Status.waiting, ts := { created := now } }) := by
          unfold createToken
          rw [hact, hcf']
          rfl
        rw [applyOp_eq_state (by simpa [runOp] using hok)]
        refine ⟨?_, (idsOk_append hnd hlt rfl).1, (idsOk_append hnd hlt rfl).2⟩
        unfold occInv at hinv ⊢
        rw [numActive_eq_countP] at hinv ⊢
        simp only [List.countP_append]
        have h1 : List.countP activeB [({ id := s.nextId, position := maxPos (s.tokens.filter activeB) + 1, status := Status.waiting, ts := { created := now } } : Token)] = 1 := by
          simp [activeB]
        rw [h1, ← hinv]
    · have hact' : s.queue.isActive = false := by simpa using hact
      have herr : createToken s now =
          Except.error (ApiError.notFound "Queue not found or inactive") := by
        unfold createToken
        rw [hact']
        rfl
      rw [applyOp_of_error (by simpa [runOp] using herr)]
      exact ⟨hinv, hnd, hlt⟩
| publicCreate now =>
    by_cases hact : s.queue.isActive = true
    · by_cases hcf : capFull s.queue = true
      · have herr : publicCreateToken s now =
            Except.error (ApiError.badRequest "Queue is currently full") := by
          unfold publicCreateToken
          rw [hact, hcf]
          rfl
        rw [applyOp_of_error (by simpa [runOp] using herr)]
        exact ⟨hinv, hnd, hlt⟩
      · have hcf' : capFull s.queue = false := by simpa using hcf
        have hok : publicCreateToken s now = Except.ok ({ queue := { s.queue with currentLength := s.queue.currentLength + 1 }, tokens := s.tokens ++ [{ id := s.nextId, position := maxPos s.tokens + 1, status := Status.waiting, ts := { created := now } }], nextId := s.nextId + 1 }, { id := s.nextId, position := maxPos s.tokens + 1, status := Status.waiting, ts := { created := now } }) := by
          unfold publicCreateToken
          rw [hact, hcf']
          rfl
        rw [applyOp_eq_state (by simpa [runOp] using hok)]
        refine ⟨?_, (idsOk_append hnd hlt rfl).1, (idsOk_append hnd hlt rfl).2⟩
        unfold occInv at hinv ⊢
        rw [numActive_eq_countP] at hinv ⊢
        simp only [List.countP_append]
        have h1 : List.countP activeB [({ id := s.nextId, position := maxPos s.tokens + 1, status := Status.waiting, ts := { created := now } } : Token)] = 1 := by
          simp [activeB]
        rw [h1, ← hinv]
    · have hact' : s.queue.isActive = false := by simpa using hact
      have herr : publicCreateToken s now =
          Except.error (ApiError.badRequest "Queue is currently not accepting new tokens") := by
        unfold publicCreateToken
        rw [hact']
        rfl
      rw [applyOp_of_error (by simpa [runOp] using herr)]
      exact ⟨hinv, hnd, hlt⟩
| callNext now =>
    cases hmw : minWaiting s.tokens with
    | none =>
        have herr : callNextToken s now =
            Except.error (ApiError.notFound "No waiting tokens found") := by
          unfold callNextToken
          rw [hmw]
        rw [applyOp_of_error (by simpa [runOp] using herr)]
        exact ⟨hinv, hnd, hlt⟩
    | some u =>
        have hmem : u ∈ s.tokens ∧ u.status = Status.waiting := by
          rcases minWaiting_go_mem s.tokens none u hmw with hacc | hm
          · exact Option.noConfusion hacc
          · exact hm
        have hok : callNextToken s now = Except.ok ({ s with tokens := updateById s.tokens u.id (preSaveHook true now { u with status := Status.inService }) }, preSaveHook true now { u with status := Status.inService }) := by
          unfold callNextToken
          rw [hmw]
        rw [applyOp_eq_state (by simpa [runOp] using hok)]
        have hids0 : (updateById s.tokens u.id (preSaveHook true now { u with status := Status.inService })).map Token.id = s.tokens.map Token.id :=
          updateById_ids (preSaveHook_id true now { u with status := Status.inService })
        refine ⟨?_, (ids_preserved hids0 hnd hlt).1, (ids_preserved hids0 hnd hlt).2⟩
        have hcnt := countP_updateById
          (preSaveHook true now { u with status := Status.inService }) hnd hmem.1
        have hau : activeB u = true := by simp [activeB, hmem.2]
        have hat : activeB (preSaveHook true now { u with status := Status.inService }) = true := by
          simp [activeB, preSaveHook_status]
        simp only [hau, hat, if_true] at hcnt
        unfold occInv at hinv ⊢
        rw [numActive_eq_countP] at hinv ⊢
        dsimp only
        omega
| complete id now =>
    cases hft : findToken s.tokens id with
    | none =>
        have herr : completeToken s id now =
            Except.error (ApiError.notFound "Token not found") := by
          unfold completeToken
          simp only [hft]
        rw [applyOp_of_error (by simpa [runOp] using herr)]
        exact ⟨hinv, hnd, hlt⟩
    | some t =>
        have hmem := findToken_mem hft
        by_cases hst : t.status = Status.inService
        · have hok : completeToken s id now = Except.ok ({ s with tokens := updateById s.tokens id (preSaveHook true now { t with status := Status.served }), queue := { s.queue with totalServed := s.queue.totalServed + 1, currentLength := s.queue.currentLength - 1 } }, preSaveHook true now { t with status := Status.served }) := by
            unfold completeToken
            simp only [hft]
            rw [hst]
            rfl
          rw [applyOp_eq_state (by simpa [runOp] using hok), ← hmem.2]
          have hids0 : (updateById s.tokens t.id (preSaveHook true now { t with status := Status.served })).map Token.id = s.tokens.map Token.id :=
            updateById_ids (preSaveHook_id true now { t with status := Status.served })
          refine ⟨?_, (ids_preserved hids0 hnd hlt).1, (ids_preserved hids0 hnd hlt).2⟩
          have hcnt := countP_updateById
            (preSaveHook true now { t with status := Status.served }) hnd hmem.1
          have hat : activeB t = true := by simp [activeB, hst]
          have hat' : activeB (preSaveHook true now { t with status := Status.served }) = false := by
            simp [activeB, preSaveHook_status]
          simp only [hat, hat', if_true, Bool.false_eq_true, if_false] at hcnt
          have hpos : 0 < s.tokens.countP activeB :=
            List.countP_pos_iff.mpr ⟨t, hmem.1, hat⟩
          unfold occInv at hinv ⊢
          rw [numActive_eq_countP] at hinv ⊢
          dsimp only
          omega
        · have hb : (t.status != Status.inService) = true := by simpa using hst
          have herr : completeToken s id now =
              Except.error (ApiError.badRequest "Token is not currently in service") := by
            unfold completeToken
            simp only [hft]
            rw [if_pos hb]
          rw [applyOp_of_error (by simpa [runOp] using herr)]
          exact ⟨hinv, hnd, hlt⟩
| cancel id now =>
    cases hft : findToken s.tokens id with
    | none =>
        have herr : cancelToken s id now =
            Except.error (ApiError.notFound "Token not found") := by
          unfold cancelToken
          simp only [hft]
        rw [applyOp_of_error (by simpa [runOp] using herr)]
        exact ⟨hinv, hnd, hlt⟩
    | some t =>
        have hmem := findToken_mem hft
        by_cases hact2 : (t.status == Status.waiting || t.status == Status.inService) = true
        · have hok : cancelToken s id now = Except.ok ({ s with tokens := if (t.status == Status.waiting) = true then (updateById s.tokens id (preSaveHook true now { t with status := Status.cancelled })).map (fun u => if u.status == Status.waiting && decide (t.position < u.position) then { u with position := u.position - 1 } else u) else updateById s.tokens id (preSaveHook true now { t with status := Status.cancelled }), queue := { s.queue with totalCancelled := s.queue.totalCancelled + 1, currentLength := s.queue.currentLength - 1 } }, preSaveHook true now { t with status := Status.cancelled }) := by
            unfold cancelToken
            simp only [hft]
            rw [if_neg (by simp [hact2])]
            rfl
          rw [applyOp_eq_state (show runOp (Op.cancel id now) s = _ from hok), ← hmem.2]
          have hidsU : (updateById s.tokens t.id (preSaveHook true now { t with status := Status.cancelled })).map Token.id = s.tokens.map Token.id :=
            updateById_ids (preSaveHook_id true now { t with status := Status.cancelled })
          have hids0 : ((if (t.status == Status.waiting) = true then (updateById s.tokens t.id (preSaveHook true now { t with status := Status.cancelled })).map (fun u => if u.status == Status.waiting && decide (t.position < u.position) then { u with position := u.position - 1 } else u) else updateById s.tokens t.id (preSaveHook true now { t with status := Status.cancelled })).map Token.id) = s.tokens.map Token.id := by
            split
            · exact (map_ids_of_id_preserving (by intro u; split <;> rfl)).trans hidsU
            · exact hidsU
          refine ⟨?_, (ids_preserved hids0 hnd hlt).1, (ids_preserved hids0 hnd hlt).2⟩
          have hcnt := countP_updateById
            (preSaveHook true now { t with status := Status.cancelled }) hnd hmem.1
          have hat : activeB t = true := hact2
          have hat' : activeB (preSaveHook true now { t with status := Status.cancelled }) = false := by
            simp [activeB, preSaveHook_status]
          simp only [hat, hat', if_true, Bool.false_eq_true, if_false] at hcnt
          have hpos : 0 < s.tokens.countP activeB :=
            List.countP_pos_iff.mpr ⟨t, hmem.1, hat⟩
          unfold occInv at hinv ⊢
          rw [numActive_eq_countP] at hinv ⊢
          dsimp only
          split
          · rw [countP_map_status (by intro u; split <;> rfl)]
            omega
          · omega
        · have herr : cancelToken s id now =
              Except.error (ApiError.badRequest "Can only cancel waiting or in-service tokens") := by
            unfold cancelToken
            simp only [hft]
            rw [if_pos (by simpa using hact2)]
          rw [applyOp_of_error (by simpa [runOp] using herr)]
          exact ⟨hinv, hnd, hlt⟩
| setStatus id st now =>
    cases hft : findToken s.tokens id with
    | none =>
        have herr : updateTokenStatus s id st now =
            Except.error (ApiError.notFound "Token not found") := by
          unfold updateTokenStatus
          simp only [hft]
        rw [applyOp_of_error (by simpa [runOp] using herr)]
        exact ⟨hinv, hnd, hlt⟩
    | some t =>
        obtain ⟨t3, hok, ht3s, -, ht3id⟩ := updateTokenStatus_ok st now hft
        have hmem := findToken_mem hft
        rw [applyOp_eq_state (by simpa [runOp] using hok), ← hmem.2]
        have hids0 : (updateById s.tokens t.id t3).map Token.id = s.tokens.map Token.id :=
          updateById_ids ht3id
        refine ⟨?_, (ids_preserved hids0 hnd hlt).1, (ids_preserved hids0 hnd hlt).2⟩
        have hedge := hsafe t hmem.1 hmem.2
        have hcnt := countP_updateById t3 hnd hmem.1
        unfold occInv at hinv ⊢
        rw [numActive_eq_countP] at hinv ⊢
        rcases hedge with ⟨h1, h2⟩ | ⟨h1, h2 | h2 | h2⟩ | ⟨h1, h2⟩
        · subst h2
          have hat : activeB t = true := by simp [activeB, h1]
          have hat3 : activeB t3 = true := by simp [activeB, ht3s]
          simp only [hat, hat3, if_true] at hcnt
          have hq : updStatusQueue s.queue Status.inService t.status = s.queue := by
            rw [h1]
            rfl
          rw [hq]
          dsimp only
          omega
        · subst h2
          have hat : activeB t = true := by simp [activeB, h1]
          have hat3 : activeB t3 = false := by simp [activeB, ht3s]
          simp only [hat, hat3, if_true, Bool.false_eq_true, if_false] at hcnt
          have hpos : 0 < s.tokens.countP activeB :=
            List.countP_pos_iff.mpr ⟨t, hmem.1, hat⟩
          have hq : updStatusQueue s.queue Status.served t.status = { s.queue with totalServed := s.queue.totalServed + 1, currentLength := s.queue.currentLength - 1 } := by
            rw [h1]
            rfl
          rw [hq]
          dsimp only
          omega
        · subst h2
          have hat : activeB t = true := by simp [activeB, h1]
          have hat3 : activeB t3 = false := by simp [activeB, ht3s]
          simp only [hat, hat3, if_true, Bool.false_eq_true, if_false] at hcnt
          have hpos : 0 < s.tokens.countP activeB :=
            List.countP_pos_iff.mpr ⟨t, hmem.1, hat⟩
          have hq : updStatusQueue s.queue Status.cancelled t.status = { s.queue with totalCancelled := s.queue.totalCancelled + 1, currentLength := s.queue.currentLength - 1 } := by
            rw [h1]
            rfl
          rw [hq]
          dsimp only
          omega
        · subst h2
          have hat : activeB t = true := by simp [activeB, h1]
          have hat3 : activeB t3 = true := by simp [activeB, ht3s]
          simp only [hat, hat3, if_true] at hcnt
          have hq : updStatusQueue s.queue Status.waiting t.status = s.queue := by
            rw [h1]
            rfl
          rw [hq]
          dsimp only
          omega
        · subst h2
          have hat : activeB t = true := by simp [activeB, h1]
          have hat3 : activeB t3 = false := by simp [activeB, ht3s]
          simp only [hat, hat3, if_true, Bool.false_eq_true, if_false] at hcnt
          have hpos : 0 < s.tokens.countP activeB :=
            List.countP_pos_iff.mpr ⟨t, hmem.1, hat⟩
          have hq : updStatusQueue s.queue Status.cancelled t.status = { s.queue with totalCancelled := s.queue.totalCancelled + 1, currentLength := s.queue.currentLength - 1 } := by
            rw [h1]
            rfl
          rw [hq]
          dsimp only
          omega
| reorder id newPosition =>
    by_cases hlp : newPosition < 1
    · have herr : updateTokenPosition s id newPosition =
          Except.error (ApiError.badRequest "Invalid position") := by
        unfold updateTokenPosition
        rw [if_pos hlp]
      rw [applyOp_of_error (by simpa [runOp] using herr)]
      exact ⟨hinv, hnd, hlt⟩
    · cases hft : findToken s.tokens id with
      | none =>
          have herr : updateTokenPosition s id newPosition =
              Except.error (ApiError.notFound "Token not found") := by
            unfold updateTokenPosition reorderCore
            rw [if_neg hlp]
            simp only [hft]
          rw [applyOp_of_error (by simpa [runOp] using herr)]
          exact ⟨hinv, hnd, hlt⟩
      | some t =>
          have hmem := findToken_mem hft
          by_cases hw : t.status = Status.waiting
          · have hok : updateTokenPosition s id newPosition = Except.ok ({ s with tokens := updateById (shiftOthers s.tokens id t.position newPosition) id { t with position := newPosition } }, { t with position := newPosition }) := by
              unfold updateTokenPosition reorderCore
              rw [if_neg hlp]
              simp only [hft]
              rw [hw]
              rfl
            rw [applyOp_eq_state (by simpa [runOp] using hok), ← hmem.2]
            have hids : (shiftOthers s.tokens t.id t.position newPosition).map Token.id =
                s.tokens.map Token.id := by
              unfold shiftOthers
              split
              · exact map_ids_of_id_preserving (fun u => shiftDown_id _ _ _ _)
              · exact map_ids_of_id_preserving (fun u => shiftUp_id _ _ _ _)
            have hids9 : (updateById (shiftOthers s.tokens t.id t.position newPosition) t.id { t with position := newPosition }).map Token.id = s.tokens.map Token.id :=
              (@updateById_ids (shiftOthers s.tokens t.id t.position newPosition) t.id { t with position := newPosition } rfl).trans hids
            refine ⟨?_, (ids_preserved hids9 hnd hlt).1, (ids_preserved hids9 hnd hlt).2⟩
            have hmem2 : t ∈ shiftOthers s.tokens t.id t.position newPosition := by
              unfold shiftOthers
              split
              · exact mem_map_of_fix hmem.1 (shiftDown_self rfl)
              · exact mem_map_of_fix hmem.1 (shiftUp_self rfl)
            have hcnt := @countP_updateById
              (shiftOthers s.tokens t.id t.position newPosition) t
              { t with position := newPosition } (by rw [hids]; exact hnd) hmem2
            have hsame : activeB ({ t with position := newPosition } : Token) = activeB t := rfl
            rw [hsame] at hcnt
            have hsh : (shiftOthers s.tokens t.id t.position newPosition).countP activeB =
                s.tokens.countP activeB := by
              unfold shiftOthers
              split
              · exact countP_map_status (fun u => shiftDown_status _ _ _ _)
              · exact countP_map_status (fun u => shiftUp_status _ _ _ _)
            rw [hsh] at hcnt
            unfold occInv at hinv ⊢
            rw [numActive_eq_countP] at hinv ⊢
            dsimp only
            omega
          · have hb : (t.status != Status.waiting) = true := by simpa using hw
            have herr : updateTokenPosition s id newPosition =
                Except.error (ApiError.badRequest "Can only reorder waiting tokens") := by
              unfold updateTokenPosition reorderCore
              rw [if_neg hlp]
              simp only [hft]
              rw [if_pos hb]
            rw [applyOp_of_error (by simpa [runOp] using herr)]
            exact ⟨hinv, hnd, hlt⟩

end SmartQueue

namespace SmartQueue

theorem occWF_run (ops : List Op) (s : QState) (h : occWF s)
    (hseq : occSeq ops s) : occWF (run ops s) := by
induction ops generalizing s with
| nil => exact h
| cons op rest ih =>
    obtain ⟨hop, hrest⟩ := hseq
    exact ih (applyOp op s) (occ_step s op h.1 h.2.1 h.2.2 hop) hrest

/-- C2 amended: starting from a fresh queue (occupancy counter 0, no tokens),
the occupancy invariant (`currentLength` equals the number of active tokens)
holds after every sequence of requests drawn from enqueue (both paths),
call-next, complete, cancel, reorder, and status updates along the legal edges
other than `no_show` — but a `no_show` transition breaks it, moving a token
from active to terminal while updating no counter at all (see the
counterexample). -/
theorem c2_amended (q : Queue) (ops : List Op) (hq : q.currentLength = 0)
    (hseq : occSeq ops (emptyState q)) : occInv (run ops (emptyState q)) :=
(occWF_run ops (emptyState q)
  ⟨hq, List.nodup_nil, fun t ht => absurd ht (List.not_mem_nil t)⟩ hseq).1

/-- Witness for `c2_amended`: from the empty default queue, two enqueues,
call-next, a legal `waiting -> in_service` status update, a completion and a
cancellation of an in-service token form an admissible sequence, and the
occupancy invariant holds at its end. -/
theorem c2_amended_witness :
    defaultQueue.currentLength = 0 ∧
    occSeq [Op.create 0, Op.create 0, Op.callNext 60000,
      Op.setStatus 1 Status.inService 120000, Op.complete 0 180000,
      Op.cancel 1 240000] (emptyState defaultQueue) ∧
    occInv (run [Op.create 0, Op.create 0, Op.callNext 60000,
      Op.setStatus 1 Status.inService 120000, Op.complete 0 180000,
      Op.cancel 1 240000] (emptyState defaultQueue)) :=
⟨by decide, by decide,
 c2_amended defaultQueue [Op.create 0, Op.create 0, Op.callNext 60000,
   Op.setStatus 1 Status.inService 120000, Op.complete 0 180000,
   Op.cancel 1 240000] (by decide) (by decide)⟩

end SmartQueue

namespace SmartQueue

theorem foldr_max_le {l : List Nat} {b : Nat} (h : ∀ x ∈ l, x ≤ b) :
    l.foldr max 0 ≤ b := by
induction l with
| nil => exact Nat.zero_le b
| cons a l ih =>
    simp only [List.foldr_cons]
    exact max_le (h a (List.mem_cons_self a l))
      (ih fun x hx => h x (List.mem_cons_of_mem a hx))

theorem le_foldr_max {l : List Nat} {x : Nat} (h : x ∈ l) :
    x ≤ l.foldr max 0 := by
induction l with
| nil => cases h
| cons a l ih =>
    simp only [List.foldr_cons]
    rcases List.mem_cons.mp h with rfl | hm
    · exact le_max_left _ _
    · exact le_trans (ih hm) (le_max_right _ _)

theorem foldr_max_of_perm_range {l : List Nat} {n : Nat}
    (h : l.Perm (List.range' 1 n)) : l.foldr max 0 = n := by
cases n with
| zero =>
    have : l = [] := h.eq_nil
    rw [this]
    rfl
| succ m =>
    have hmem : (m + 1) ∈ l := h.mem_iff.mpr (by rw [List.mem_range'_1]; omega)
    have hle : ∀ x ∈ l, x ≤ m + 1 := by
      intro x hx
      have := h.mem_iff.mp hx
      rw [List.mem_range'_1] at this
      omega
    exact le_antisymm (foldr_max_le hle) (le_foldr_max hmem)

theorem map_sub_one_range' : ∀ (k p : Nat),
    (List.range' (p + 1) k).map (fun q => q - 1) = List.range' p k := by
intro k
induction k with
| zero => intro p; rfl
| succ m ih =>
    intro p
    rw [List.range'_succ, List.range'_succ]
    simp only [List.map_cons]
    rw [show p + 1 + 1 = (p + 1) + 1 from rfl]
    rw [ih (p + 1)]
    simp

theorem map_add_one_range' : ∀ (k s : Nat),
    (List.range' s k).map (fun q => q + 1) = List.range' (s + 1) k := by
intro k
induction k with
| zero => intro s; rfl
| succ m ih =>
    intro s
    rw [List.range'_succ, List.range'_succ]
    simp only [List.map_cons]
    rw [ih (s + 1)]

theorem range'_erase {p n : Nat} (h1 : 1 ≤ p) (h2 : p ≤ n) :
    (List.range' 1 n).erase p = List.range' 1 (p - 1) ++ List.range' (p + 1) (n - p) := by
have hsplit : List.range' 1 n = List.range' 1 (p - 1) ++ List.range' p (n - p + 1) := by
  have h3 := List.range'_append 1 (p - 1) (n - p + 1) 1
  rw [show 1 + 1 * (p - 1) = p by omega, show (n - p + 1) + (p - 1) = n by omega] at h3
  exact h3.symm
rw [hsplit]
rw [show n - p + 1 = (n - p) + 1 from rfl, List.range'_succ]
rw [List.erase_append_right _ (by rw [List.mem_range'_1]; omega)]
congr 1
exact List.erase_cons_head p _

theorem cancel_shift_range {p n : Nat} (h1 : 1 ≤ p) (h2 : p ≤ n) :
    ((List.range' 1 n).erase p).map (fun q => if p < q then q - 1 else q) =
      List.range' 1 (n - 1) := by
rw [range'_erase h1 h2, List.map_append]
have e1 : (List.range' 1 (p - 1)).map (fun q => if p < q then q - 1 else q) =
    List.range' 1 (p - 1) := by
  conv_rhs => rw [← List.map_id (List.range' 1 (p - 1))]
  apply List.map_congr_left
  intro q hq
  rw [List.mem_range'_1] at hq
  rw [if_neg (by omega)]
  rfl
have e2 : (List.range' (p + 1) (n - p)).map (fun q => if p < q then q - 1 else q) =
    List.range' p (n - p) := by
  rw [← map_sub_one_range' (n - p) p]
  apply List.map_congr_left
  intro q hq
  rw [List.mem_range'_1] at hq
  rw [if_pos (by omega)]
rw [e1, e2]
have h3 := List.range'_append 1 (p - 1) (n - p) 1
rw [show 1 + 1 * (p - 1) = p by omega, show (n - p) + (p - 1) = n - 1 by omega] at h3
exact h3

theorem reorder_shift_range {old npos n : Nat} (ho1 : 1 ≤ old) (ho2 : old ≤ n)
    (hn1 : 1 ≤ npos) (hn2 : npos ≤ n) :
    (npos :: ((List.range' 1 n).erase old).map
      (fun q => if old < q ∧ q ≤ npos then q - 1
        else if npos ≤ q ∧ q < old then q + 1 else q)).Perm
      (List.range' 1 n) := by
have hr : List.range' 1 n =
    List.range' 1 (npos - 1) ++ npos :: List.range' (npos + 1) (n - npos) := by
  have h4 := List.range'_append 1 (npos - 1) (n - npos + 1) 1
  rw [show 1 + 1 * (npos - 1) = npos by omega,
    show (n - npos + 1) + (npos - 1) = n by omega] at h4
  rw [← h4, show n - npos + 1 = (n - npos) + 1 from rfl, List.range'_succ]
rw [range'_erase ho1 ho2, List.map_append]
by_cases hc : old < npos
· have hsplit : List.range' (old + 1) (n - old) =
      List.range' (old + 1) (npos - old) ++ List.range' (npos + 1) (n - npos) := by
    have h5 := List.range'_append (old + 1) (npos - old) (n - npos) 1
    rw [show (old + 1) + 1 * (npos - old) = npos + 1 by omega,
      show (n - npos) + (npos - old) = n - old by omega] at h5
    exact h5.symm
  rw [hsplit, List.map_append]
  have e1 : (List.range' 1 (old - 1)).map
      (fun q => if old < q ∧ q ≤ npos then q - 1
        else if npos ≤ q ∧ q < old then q + 1 else q) = List.range' 1 (old - 1) := by
    conv_rhs => rw [← List.map_id (List.range' 1 (old - 1))]
    apply List.map_congr_left
    intro q hq
    rw [List.mem_range'_1] at hq
    rw [if_neg (by omega), if_neg (by omega)]
    rfl
  have e2 : (List.range' (old + 1) (npos - old)).map
      (fun q => if old < q ∧ q ≤ npos then q - 1
        else if npos ≤ q ∧ q < old then q + 1 else q) = List.range' old (npos - old) := by
    rw [← map_sub_one_range' (npos - old) old]
    apply List.map_congr_left
    intro q hq
    rw [List.mem_range'_1] at hq
    rw [if_pos (by omega)]
  have e3 : (List.range' (npos + 1) (n - npos)).map
      (fun q => if old < q ∧ q ≤ npos then q - 1
        else if npos ≤ q ∧ q < old then q + 1 else q) = List.range' (npos + 1) (n - npos) := by
    conv_rhs => rw [← List.map_id (List.range' (npos + 1) (n - npos))]
    apply List.map_congr_left
    intro q hq
    rw [List.mem_range'_1] at hq
    rw [if_neg (by omega), if_neg (by omega)]
    rfl
  rw [e1, e2, e3, ← List.append_assoc]
  have hm : List.range' 1 (old - 1) ++ List.range' old (npos - old) =
      List.range' 1 (npos - 1) := by
    have h6 := List.range'_append 1 (old - 1) (npos - old) 1
    rw [show 1 + 1 * (old - 1) = old by omega,
      show (npos - old) + (old - 1) = npos - 1 by omega] at h6
    exact h6
  rw [hm, hr]
  exact List.perm_middle.symm
· have hsplit : List.range' 1 (old - 1) =
      List.range' 1 (npos - 1) ++ List.range' npos (old - npos) := by
    have h5 := List.range'_append 1 (npos - 1) (old - npos) 1
    rw [show 1 + 1 * (npos - 1) = npos by omega,
      show (old - npos) + (npos - 1) = old - 1 by omega] at h5
    exact h5.symm
  rw [hsplit, List.map_append]
  have e1 : (List.range' 1 (npos - 1)).map
      (fun q => if old < q ∧ q ≤ npos then q - 1
        else if npos ≤ q ∧ q < old then q + 1 else q) = List.range' 1 (npos - 1) := by
    conv_rhs => rw [← List.map_id (List.range' 1 (npos - 1))]
    apply List.map_congr_left
    intro q hq
    rw [List.mem_range'_1] at hq
    rw [if_neg (by omega), if_neg (by omega)]
    rfl
  have e2 : (List.range' npos (old - npos)).map
      (fun q => if old < q ∧ q ≤ npos then q - 1
        else if npos ≤ q ∧ q < old then q + 1 else q) = List.range' (npos + 1) (old - npos) := by
    rw [← map_add_one_range' (old - npos) npos]
    apply List.map_congr_left
    intro q hq
    rw [List.mem_range'_1] at hq
    rw [if_neg (by omega), if_pos (by omega)]
  have e3 : (List.range' (old + 1) (n - old)).map
      (fun q => if old < q ∧ q ≤ npos then q - 1
        else if npos ≤ q ∧ q < old then q + 1 else q) = List.range' (old + 1) (n - old) := by
    conv_rhs => rw [← List.map_id (List.range' (old + 1) (n - old))]
    apply List.map_congr_left
    intro q hq
    rw [List.mem_range'_1] at hq
    rw [if_neg (by omega), if_neg (by omega)]
    rfl
  rw [e1, e2, e3, List.append_assoc]
  have hm : List.range' (npos + 1) (old - npos) ++ List.range' (old + 1) (n - old) =
      List.range' (npos + 1) (n - npos) := by
    have h6 := List.range'_append (npos + 1) (old - npos) (n - old) 1
    rw [show (npos + 1) + 1 * (old - npos) = old + 1 by omega,
      show (n - old) + (old - npos) = n - npos by omega] at h6
    exact h6
  rw [hm, hr]
  exact List.perm_middle.symm

end SmartQueue

namespace SmartQueue

theorem activeB_of_status_eq {u v : Token} (h : v.status = u.status) :
    activeB v = activeB u := by
unfold activeB
rw [h]

theorem filter_map_positions {ts : List Token} {g : Token → Token} {f : Nat → Nat}
    (hact : ∀ u ∈ ts, activeB (g u) = activeB u)
    (hpos : ∀ u ∈ ts, activeB u = true → (g u).position = f u.position) :
    ((ts.map g).filter activeB).map Token.position =
      ((ts.filter activeB).map Token.position).map f := by
induction ts with
| nil => rfl
| cons u ts ih =>
    have h1 := hact u (List.mem_cons_self u ts)
    have ih' := ih (fun v hv => hact v (List.mem_cons_of_mem u hv))
      (fun v hv => hpos v (List.mem_cons_of_mem u hv))
    by_cases hu : activeB u = true
    · rw [List.map_cons, List.filter_cons, List.filter_cons]
      rw [h1, hu]
      simp only [if_true, List.map_cons]
      rw [hpos u (List.mem_cons_self u ts) hu, ih']
    · have hu' : activeB u = false := by simpa using hu
      rw [List.map_cons, List.filter_cons, List.filter_cons]
      rw [h1, hu']
      simp only [Bool.false_eq_true, if_false]
      exact ih'

theorem updateById_no_match {ts : List Token} {id : Nat} {t' : Token}
    (h : ∀ u ∈ ts, u.id ≠ id) : updateById ts id t' = ts := by
unfold updateById
conv_rhs => rw [← List.map_id ts]
apply List.map_congr_left
intro u hu
rw [if_neg (by simpa using h u hu)]
rfl

theorem active_decompose {ts : List Token} {t : Token}
    (hm : t ∈ ts) (hat : activeB t = true) :
    ((ts.filter activeB).map Token.position).Perm
      (t.position :: ((ts.erase t).filter activeB).map Token.position) := by
have hp : ts.Perm (t :: ts.erase t) := List.perm_cons_erase hm
have h2 := (hp.filter activeB).map Token.position
rw [List.filter_cons, hat] at h2
simpa using h2

end SmartQueue

namespace SmartQueue

theorem create_WF {s : QState} {now : Int} (hwf : WFcore s) :
    WFcore (applyOp (Op.create now) s) := by
by_cases hact : s.queue.isActive = true
· by_cases hcf : capFull s.queue = true
  · have herr : createToken s now =
        Except.error (ApiError.badRequest "Queue is at maximum capacity") := by
      unfold createToken
      rw [hact, hcf]
      rfl
    rw [applyOp_of_error (by simpa [runOp] using herr)]
    exact hwf
  · have hcf' : capFull s.queue = false := by simpa using hcf
    have hok : createToken s now = Except.ok ({ queue := { s.queue with currentLength := s.queue.currentLength + 1 }, tokens := s.tokens ++ [{ id := s.nextId, position := maxPos (s.tokens.filter activeB) + 1, status := Status.waiting, ts := { created := now } }], nextId := s.nextId + 1 }, { id := s.nextId, position := maxPos (s.tokens.filter activeB) + 1, status := Status.waiting, ts := { created := now } }) := by
      unfold createToken
      rw [hact, hcf']
      rfl
    rw [applyOp_eq_state (by simpa [runOp] using hok)]
    obtain ⟨hnd, hlt, hsvc, hcont⟩ := hwf
    have hn : maxPos (s.tokens.filter activeB) = numActive s :=
      foldr_max_of_perm_range hcont
    refine ⟨?_, ?_, ?_, ?_⟩
    · show ((s.tokens ++ [_]).map Token.id).Nodup
      rw [List.map_append]
      simp only [List.map_cons, List.map_nil]
      have hperm := List.perm_append_singleton s.nextId (s.tokens.map Token.id)
      rw [hperm.nodup_iff]
      rw [List.nodup_cons]
      refine ⟨?_, hnd⟩
      intro hmem
      obtain ⟨u, hu, hid⟩ := List.mem_map.mp hmem
      exact absurd hid (Nat.ne_of_lt (hlt u hu))
    · intro v hv
      rcases List.mem_append.mp hv with hv1 | hv2
      · exact Nat.lt_succ_of_lt (hlt v hv1)
      · rw [List.mem_singleton.mp hv2]
        exact Nat.lt_succ_self _
    · intro v hv
      rcases List.mem_append.mp hv with hv1 | hv2
      · exact hsvc v hv1
      · rw [List.mem_singleton.mp hv2]
        simp
    · show contiguous _
      unfold contiguous
      have hpos' : activePositions { queue := { s.queue with currentLength := s.queue.currentLength + 1 }, tokens := s.tokens ++ [{ id := s.nextId, position := maxPos (s.tokens.filter activeB) + 1, status := Status.waiting, ts := { created := now } }], nextId := s.nextId + 1 } = activePositions s ++ [maxPos (s.tokens.filter activeB) + 1] := by
        show ((s.tokens ++ [_]).filter activeB).map Token.position = _
        rw [List.filter_append, List.map_append]
        rfl
      have hlen : numActive { queue := { s.queue with currentLength := s.queue.currentLength + 1 }, tokens := s.tokens ++ [{ id := s.nextId, position := maxPos (s.tokens.filter activeB) + 1, status := Status.waiting, ts := { created := now } }], nextId := s.nextId + 1 } = numActive s + 1 := by
        show ((s.tokens ++ [_]).filter activeB).length = _
        rw [List.filter_append, List.length_append]
        rfl
      rw [hpos', hlen, hn]
      have hconc : List.range' 1 (numActive s + 1) =
          List.range' 1 (numActive s) ++ [numActive s + 1] := by
        have h7 : List.range' 1 (numActive s + 1) 1 =
            List.range' 1 (numActive s) 1 ++ [1 + 1 * numActive s] :=
          List.range'_concat 1 (numActive s)
        rw [show 1 + 1 * numActive s = numActive s + 1 by omega] at h7
        exact h7
      rw [hconc]
      exact hcont.append_right _
· have hact' : s.queue.isActive = false := by simpa using hact
  have herr : createToken s now =
      Except.error (ApiError.notFound "Queue not found or inactive") := by
    unfold createToken
    rw [hact']
    rfl
  rw [applyOp_of_error (by simpa [runOp] using herr)]
  exact hwf

end SmartQueue

namespace SmartQueue

theorem cancel_WF {s : QState} {id : Nat} {now : Int} (hwf : WFcore s) :
    WFcore (applyOp (Op.cancel id now) s) := by
cases hft : findToken s.tokens id with
| none =>
    have herr : cancelToken s id now =
        Except.error (ApiError.notFound "Token not found") := by
      unfold cancelToken
      simp only [hft]
    rw [applyOp_of_error (by simpa [runOp] using herr)]
    exact hwf
| some t =>
    have hmem := findToken_mem hft
    by_cases hwt : t.status = Status.waiting
    · have hok : cancelToken s id now = Except.ok ({ s with tokens := (updateById s.tokens id (preSaveHook true now { t with status := Status.cancelled })).map (cancelShift t.position), queue := { s.queue with totalCancelled := s.queue.totalCancelled + 1, currentLength := s.queue.currentLength - 1 } }, preSaveHook true now { t with status := Status.cancelled }) := by
        unfold cancelToken
        simp only [hft]
        rw [hwt]
        rfl
      rw [applyOp_eq_state (show runOp (Op.cancel id now) s = _ from hok), ← hmem.2]
      obtain ⟨hnd, hlt, hsvc, hcont⟩ := hwf
      have hstC : (preSaveHook true now { t with status := Status.cancelled }).status =
          Status.cancelled := preSaveHook_status _ _ _
      have hat : activeB t = true := by simp [activeB, hwt]
      have hids : ((updateById s.tokens t.id (preSaveHook true now { t with status := Status.cancelled })).map (cancelShift t.position)).map Token.id = s.tokens.map Token.id := by
        rw [map_ids_of_id_preserving (fun u => cancelShift_id _ _)]
        exact updateById_ids (preSaveHook_id _ _ _)
      refine ⟨?_, ?_, ?_, ?_⟩
      · show (((updateById s.tokens t.id (preSaveHook true now { t with status := Status.cancelled })).map (cancelShift t.position)).map Token.id).Nodup
        rw [hids]
        exact hnd
      · intro v hv
        have hv2 : v ∈ (updateById s.tokens t.id (preSaveHook true now { t with status := Status.cancelled })).map (cancelShift t.position) := hv
        have hvm : v.id ∈ (((updateById s.tokens t.id (preSaveHook true now { t with status := Status.cancelled })).map (cancelShift t.position)).map Token.id) :=
          List.mem_map_of_mem Token.id hv2
        rw [hids] at hvm
        obtain ⟨u, hu, he⟩ := List.mem_map.mp hvm
        rw [← he]
        exact hlt u hu
      · intro v hv
        have hv2 : v ∈ (updateById s.tokens t.id (preSaveHook true now { t with status := Status.cancelled })).map (cancelShift t.position) := hv
        obtain ⟨w, hw, rfl⟩ := List.mem_map.mp hv2
        rw [cancelShift_status]
        unfold updateById at hw
        obtain ⟨u, hu, rfl⟩ := List.mem_map.mp hw
        by_cases hb : (u.id == t.id) = true
        · rw [if_pos hb]
          rw [hstC]
          intro hcontra
          exact Status.noConfusion hcontra
        · rw [if_neg hb]
          exact hsvc u hu
      · unfold contiguous
        have hupd : (updateById s.tokens t.id (preSaveHook true now { t with status := Status.cancelled })).Perm ((preSaveHook true now { t with status := Status.cancelled }) :: s.tokens.erase t) :=
          updateById_perm _ hnd hmem.1
        have hshC : cancelShift t.position (preSaveHook true now { t with status := Status.cancelled }) = preSaveHook true now { t with status := Status.cancelled } := by
          unfold cancelShift
          rw [if_neg (by simp [hstC])]
        have htok : ((updateById s.tokens t.id (preSaveHook true now { t with status := Status.cancelled })).map (cancelShift t.position)).Perm ((preSaveHook true now { t with status := Status.cancelled }) :: (s.tokens.erase t).map (cancelShift t.position)) := by
          have h8 := hupd.map (cancelShift t.position)
          rw [List.map_cons, hshC] at h8
          exact h8
        have hactC : activeB (preSaveHook true now { t with status := Status.cancelled }) = false := by
          simp [activeB, hstC]
        have hfilter : (((updateById s.tokens t.id (preSaveHook true now { t with status := Status.cancelled })).map (cancelShift t.position)).filter activeB).map Token.position |>.Perm ((((s.tokens.erase t).map (cancelShift t.position)).filter activeB).map Token.position) := by
          have h9 := (htok.filter activeB).map Token.position
          rw [List.filter_cons, hactC] at h9
          simpa using h9
        have hfm : (((s.tokens.erase t).map (cancelShift t.position)).filter activeB).map Token.position = (((s.tokens.erase t).filter activeB).map Token.position).map (fun q => if t.position < q then q - 1 else q) := by
          apply filter_map_positions
          · intro u hu
            exact activeB_of_status_eq (cancelShift_status _ _)
          · intro u hu hau
            have husvc := hsvc u (List.mem_of_mem_erase hu)
            have huw : u.status = Status.waiting := by
              have : u.status = Status.waiting ∨ u.status = Status.inService := by
                simpa [activeB] using hau
              rcases this with h | h
              · exact h
              · exact absurd h husvc
            unfold cancelShift
            by_cases hq : t.position < u.position
            · rw [if_pos (by simp [huw, hq]), if_pos hq]
            · rw [if_neg (by simp [huw, hq]), if_neg hq]
        have hdec := active_decompose hmem.1 hat
        have hpx : (t.position :: ((s.tokens.erase t).filter activeB).map Token.position).Perm (List.range' 1 (numActive s)) := by
          exact hdec.symm.trans hcont
        have hpb : t.position ∈ List.range' 1 (numActive s) :=
          hpx.mem_iff.mp (List.mem_cons_self _ _)
        rw [List.mem_range'_1] at hpb
        have hX : (((s.tokens.erase t).filter activeB).map Token.position).Perm ((List.range' 1 (numActive s)).erase t.position) := by
          have h10 := hpx.erase t.position
          rw [List.erase_cons_head] at h10
          exact h10
        have hfinal : (((updateById s.tokens t.id (preSaveHook true now { t with status := Status.cancelled })).map (cancelShift t.position)).filter activeB).map Token.position |>.Perm (List.range' 1 (numActive s - 1)) := by
          refine hfilter.trans ?_
          rw [hfm]
          have h11 := hX.map (fun q => if t.position < q then q - 1 else q)
          rw [cancel_shift_range hpb.1 (by omega)] at h11
          exact h11
        have hlen2 : numActive { queue := { s.queue with totalCancelled := s.queue.totalCancelled + 1, currentLength := s.queue.currentLength - 1 }, tokens := (updateById s.tokens t.id (preSaveHook true now { t with status := Status.cancelled })).map (cancelShift t.position), nextId := s.nextId } = numActive s - 1 := by
          have h12 := hfinal.length_eq
          rw [List.length_map, List.length_range'] at h12
          show (List.filter activeB _).length = _
          exact h12
        rw [hlen2]
        exact hfinal
    · have hni : t.status ≠ Status.inService := hwf.2.2.1 t hmem.1
      have hg : (!(t.status == Status.waiting || t.status == Status.inService)) = true := by
        simp [hwt, hni]
      have herr : cancelToken s id now =
          Except.error (ApiError.badRequest "Can only cancel waiting or in-service tokens") := by
        unfold cancelToken
        simp only [hft]
        rw [if_pos hg]
      rw [applyOp_of_error (by simpa [runOp] using herr)]
      exact hwf

end SmartQueue

namespace SmartQueue

theorem reorder_contig_core {s : QState} {t : Token} {newPosition : Nat}
    {G : Token → Token}
    (hnd : (s.tokens.map Token.id).Nodup) (hmem : t ∈ s.tokens)
    (hwt : t.status = Status.waiting) (hcont : contiguous s)
    (hb1 : 1 ≤ newPosition) (hb2 : newPosition ≤ numActive s)
    (hGid : ∀ u, (G u).id = u.id)
    (hGstat : ∀ u, (G u).status = u.status)
    (hGfix : G t = t)
    (hGpos : ∀ u ∈ s.tokens.erase t, activeB u = true → (G u).position =
      (if t.position < u.position ∧ u.position ≤ newPosition then u.position - 1
        else if newPosition ≤ u.position ∧ u.position < t.position then u.position + 1
        else u.position)) :
    (((updateById (s.tokens.map G) t.id { t with position := newPosition }).filter activeB).map Token.position).Perm (List.range' 1 (numActive s)) := by
have hne : ∀ u ∈ s.tokens.erase t, u.id ≠ t.id := erase_ids_ne hnd hmem
have hat : activeB t = true := by simp [activeB, hwt]
have hp : s.tokens.Perm (t :: s.tokens.erase t) := List.perm_cons_erase hmem
have h8 : (s.tokens.map G).Perm (t :: (s.tokens.erase t).map G) := by
  have h8a := hp.map G
  rw [List.map_cons, hGfix] at h8a
  exact h8a
have h9 := h8.map (fun u => if u.id == t.id then { t with position := newPosition } else u)
rw [List.map_cons] at h9
rw [if_pos (by simp)] at h9
have h10 : updateById ((s.tokens.erase t).map G) t.id { t with position := newPosition } = (s.tokens.erase t).map G := by
  apply updateById_no_match
  intro u hu
  obtain ⟨w, hw, rfl⟩ := List.mem_map.mp hu
  rw [hGid]
  exact hne w hw
rw [show List.map (fun u => if u.id == t.id then { t with position := newPosition } else u) ((s.tokens.erase t).map G) = (s.tokens.erase t).map G from h10] at h9
have hupd2 : (updateById (s.tokens.map G) t.id { t with position := newPosition }).Perm (({ t with position := newPosition } : Token) :: (s.tokens.erase t).map G) := h9
have hat2 : activeB ({ t with position := newPosition } : Token) = true := hat
have hfilter := (hupd2.filter activeB).map Token.position
rw [List.filter_cons, hat2] at hfilter
simp only [if_true, List.map_cons] at hfilter
have hfm : (((s.tokens.erase t).map G).filter activeB).map Token.position = (((s.tokens.erase t).filter activeB).map Token.position).map (fun q => if t.position < q ∧ q ≤ newPosition then q - 1 else if newPosition ≤ q ∧ q < t.position then q + 1 else q) := by
  apply filter_map_positions
  · intro u hu
    exact activeB_of_status_eq (hGstat u)
  · intro u hu hau
    exact hGpos u hu hau
rw [hfm] at hfilter
have hdec := active_decompose hmem hat
have hpx : (t.position :: ((s.tokens.erase t).filter activeB).map Token.position).Perm (List.range' 1 (numActive s)) :=
  hdec.symm.trans hcont
have hpb : t.position ∈ List.range' 1 (numActive s) :=
  hpx.mem_iff.mp (List.mem_cons_self _ _)
rw [List.mem_range'_1] at hpb
have hX : (((s.tokens.erase t).filter activeB).map Token.position).Perm ((List.range' 1 (numActive s)).erase t.position) := by
  have h11 := hpx.erase t.position
  rw [List.erase_cons_head] at h11
  exact h11
refine hfilter.trans ?_
have h12 := List.Perm.cons ({ t with position := newPosition } : Token).position (hX.map (fun q => if t.position < q ∧ q ≤ newPosition then q - 1 else if newPosition ≤ q ∧ q < t.position then q + 1 else q))
refine h12.trans ?_
exact reorder_shift_range hpb.1 (by omega) hb1 hb2

theorem reorder_WF {s : QState} {id newPosition : Nat} (hwf : WFcore s)
    (hco : ∀ t ∈ s.tokens, t.id = id → t.status = Status.waiting →
      1 ≤ newPosition ∧ newPosition ≤ numActive s) :
    WFcore (applyOp (Op.reorder id newPosition) s) := by
by_cases hlt : newPosition < 1
· have herr : updateTokenPosition s id newPosition =
      Except.error (ApiError.badRequest "Invalid position") := by
    unfold updateTokenPosition
    rw [if_pos hlt]
  rw [applyOp_of_error (by simpa [runOp] using herr)]
  exact hwf
· cases hft : findToken s.tokens id with
  | none =>
      have herr : updateTokenPosition s id newPosition =
          Except.error (ApiError.notFound "Token not found") := by
        unfold updateTokenPosition reorderCore
        rw [if_neg hlt]
        simp only [hft]
      rw [applyOp_of_error (by simpa [runOp] using herr)]
      exact hwf
  | some t =>
      have hmem := findToken_mem hft
      by_cases hwt : t.status = Status.waiting
      · obtain ⟨hb1, hb2⟩ := hco t hmem.1 hmem.2 hwt
        have hok : updateTokenPosition s id newPosition = Except.ok ({ s with tokens := updateById (shiftOthers s.tokens id t.position newPosition) id { t with position := newPosition } }, { t with position := newPosition }) := by
          unfold updateTokenPosition reorderCore
          rw [if_neg hlt]
          simp only [hft]
          rw [hwt]
          rfl
        rw [applyOp_eq_state (show runOp (Op.reorder id newPosition) s = _ from hok), ← hmem.2]
        obtain ⟨hnd, hltid, hsvc, hcont⟩ := hwf
        have hne : ∀ u ∈ s.tokens.erase t, u.id ≠ t.id := erase_ids_ne hnd hmem.1
        have hat : activeB t = true := by simp [activeB, hwt]
        have hids2 : (shiftOthers s.tokens t.id t.position newPosition).map Token.id =
            s.tokens.map Token.id := by
          unfold shiftOthers
          split
          · exact map_ids_of_id_preserving (fun u => shiftDown_id _ _ _ _)
          · exact map_ids_of_id_preserving (fun u => shiftUp_id _ _ _ _)
        have hids3 : ((updateById (shiftOthers s.tokens t.id t.position newPosition) t.id { t with position := newPosition }).map Token.id) = s.tokens.map Token.id := by
          rw [@updateById_ids (shiftOthers s.tokens t.id t.position newPosition) t.id { t with position := newPosition } rfl]
          exact hids2
        refine ⟨?_, ?_, ?_, ?_⟩
        · show ((updateById (shiftOthers s.tokens t.id t.position newPosition) t.id { t with position := newPosition }).map Token.id).Nodup
          rw [hids3]
          exact hnd
        · intro v hv
          have hv2 : v ∈ updateById (shiftOthers s.tokens t.id t.position newPosition) t.id { t with position := newPosition } := hv
          have hvm := List.mem_map_of_mem Token.id hv2
          rw [hids3] at hvm
          obtain ⟨u, hu, he⟩ := List.mem_map.mp hvm
          rw [← he]
          exact hltid u hu
        · intro v hv
          have hv2 : v ∈ updateById (shiftOthers s.tokens t.id t.position newPosition) t.id { t with position := newPosition } := hv
          unfold updateById at hv2
          obtain ⟨w, hw, rfl⟩ := List.mem_map.mp hv2
          by_cases hb : (w.id == t.id) = true
          · rw [if_pos hb]
            show ({ t with position := newPosition } : Token).status ≠ Status.inService
            rw [show ({ t with position := newPosition } : Token).status = t.status from rfl, hwt]
            intro hcontra
            exact Status.noConfusion hcontra
          · rw [if_neg hb]
            unfold shiftOthers at hw
            by_cases hgt : newPosition > t.position
            · rw [if_pos hgt] at hw
              obtain ⟨u, hu, rfl⟩ := List.mem_map.mp hw
              rw [shiftDown_status]
              exact hsvc u hu
            · rw [if_neg hgt] at hw
              obtain ⟨u, hu, rfl⟩ := List.mem_map.mp hw
              rw [shiftUp_status]
              exact hsvc u hu
        · unfold contiguous
          by_cases hgt : newPosition > t.position
          · have hXeq : shiftOthers s.tokens t.id t.position newPosition =
                s.tokens.map (shiftDown t.id t.position newPosition) := by
              unfold shiftOthers
              rw [if_pos hgt]
            rw [hXeq]
            have hperm := reorder_contig_core hnd hmem.1 hwt hcont hb1 hb2
              (shiftDown_id _ _ _) (shiftDown_status _ _ _) (shiftDown_self rfl)
              (by
                intro u hu hau
                have husvc := hsvc u (List.mem_of_mem_erase hu)
                have huw : u.status = Status.waiting := by
                  have : u.status = Status.waiting ∨ u.status = Status.inService := by
                    simpa [activeB] using hau
                  rcases this with h | h
                  · exact h
                  · exact absurd h husvc
                have hneu := erase_ids_ne hnd hmem.1 u hu
                unfold shiftDown
                by_cases hq : t.position < u.position ∧ u.position ≤ newPosition
                · have hcond : (u.id != t.id && u.status == Status.waiting &&
                      decide (t.position < u.position) &&
                      decide (u.position ≤ newPosition)) = true := by
                    simp [hneu, huw, hq.1, hq.2]
                  rw [if_pos hcond, if_pos hq]
                · have hcond : ¬ ((u.id != t.id && u.status == Status.waiting &&
                      decide (t.position < u.position) &&
                      decide (u.position ≤ newPosition)) = true) := by
                    simp only [Bool.and_eq_true, bne_iff_ne, beq_iff_eq,
                      decide_eq_true_eq, ne_eq]
                    rintro ⟨⟨⟨-, -⟩, hc⟩, hd⟩
                    exact hq ⟨hc, hd⟩
                  have hnot2 : ¬ (newPosition ≤ u.position ∧ u.position < t.position) := by
                    omega
                  rw [if_neg hcond, if_neg hq, if_neg hnot2])
            have hlen3 : numActive { queue := s.queue, tokens := updateById (s.tokens.map (shiftDown t.id t.position newPosition)) t.id { t with position := newPosition }, nextId := s.nextId } = numActive s := by
              have h13 := hperm.length_eq
              rw [List.length_map, List.length_range'] at h13
              show (List.filter activeB _).length = _
              exact h13
            rw [hlen3]
            exact hperm
          · have hXeq : shiftOthers s.tokens t.id t.position newPosition =
                s.tokens.map (shiftUp t.id t.position newPosition) := by
              unfold shiftOthers
              rw [if_neg hgt]
            rw [hXeq]
            have hperm := reorder_contig_core hnd hmem.1 hwt hcont hb1 hb2
              (shiftUp_id _ _ _) (shiftUp_status _ _ _) (shiftUp_self rfl)
              (by
                intro u hu hau
                have husvc := hsvc u (List.mem_of_mem_erase hu)
                have huw : u.status = Status.waiting := by
                  have : u.status = Status.waiting ∨ u.status = Status.inService := by
                    simpa [activeB] using hau
                  rcases this with h | h
                  · exact h
                  · exact absurd h husvc
                have hneu := erase_ids_ne hnd hmem.1 u hu
                unfold shiftUp
                have hnot1 : ¬ (t.position < u.position ∧ u.position ≤ newPosition) := by
                  omega
                by_cases hq : newPosition ≤ u.position ∧ u.position < t.position
                · have hcond : (u.id != t.id && u.status == Status.waiting &&
                      decide (newPosition ≤ u.position) &&
                      decide (u.position < t.position)) = true := by
                    simp [hneu, huw, hq.1, hq.2]
                  rw [if_pos hcond, if_neg hnot1, if_pos hq]
                · have hcond : ¬ ((u.id != t.id && u.status == Status.waiting &&
                      decide (newPosition ≤ u.position) &&
                      decide (u.position < t.position)) = true) := by
                    simp only [Bool.and_eq_true, bne_iff_ne, beq_iff_eq,
                      decide_eq_true_eq, ne_eq]
                    rintro ⟨⟨⟨-, -⟩, hc⟩, hd⟩
                    exact hq ⟨hc, hd⟩
                  rw [if_neg hcond, if_neg hnot1, if_neg hq])
            have hlen3 : numActive { queue := s.queue, tokens := updateById (s.tokens.map (shiftUp t.id t.position newPosition)) t.id { t with position := newPosition }, nextId := s.nextId } = numActive s := by
              have h13 := hperm.length_eq
              rw [List.length_map, List.length_range'] at h13
              show (List.filter activeB _).length = _
              exact h13
            rw [hlen3]
            exact hperm
      · have hb : (t.status != Status.waiting) = true := by simpa using hwt
        have herr : updateTokenPosition s id newPosition =
            Except.error (ApiError.badRequest "Can only reorder waiting tokens") := by
          unfold updateTokenPosition reorderCore
          rw [if_neg hlt]
          simp only [hft]
          rw [if_pos hb]
        rw [applyOp_of_error (by simpa [runOp] using herr)]
        exact hwf

end SmartQueue

namespace SmartQueue

/-- C1 counterexample: the contiguity invariant does not survive a completed
call-next/complete cycle.  From an empty queue: two enqueues (positions 1, 2),
call-next (token 0 `in_service` at position 1), complete token 0 — every
operation succeeds, yet the remaining single active token sits at position 2,
so the active positions are [2], not [1]: terminal transitions of in-service
tokens never re-pack the positions behind them. -/
theorem c1_counterexample :
    activePositions (run [Op.create 0, Op.create 0, Op.callNext 60000,
      Op.complete 0 120000] (emptyState defaultQueue)) = [2] ∧
    numActive (run [Op.create 0, Op.create 0, Op.callNext 60000,
      Op.complete 0 120000] (emptyState defaultQueue)) = 1 ∧
    ¬ contiguous (run [Op.create 0, Op.create 0, Op.callNext 60000,
      Op.complete 0 120000] (emptyState defaultQueue)) := by
decide

/-- C1 amended: the contiguity invariant holds after every completed
operation for sequences built from authenticated enqueue, cancellation, and
reorder whose target position lies within the current contiguous range —
that is, as long as no token enters service (`call-next`, status updates and
the public enqueue path are excluded; once a token is in service, completing
or cancelling it leaves a gap, reorders skip it, and the public path can
resurrect terminal positions). -/
theorem c1_amended (ops : List Op) (s : QState) (hwf : WFcore s)
    (hseq : coreSeq ops s) : contiguous (run ops s) := by
induction ops generalizing s with
| nil => exact hwf.2.2.2
| cons op rest ih =>
    obtain ⟨hop, hrest⟩ := hseq
    have hwf' : WFcore (applyOp op s) := by
      cases op with
      | create now => exact create_WF hwf
      | cancel id now => exact cancel_WF hwf
      | reorder id npos => exact reorder_WF hwf hop
      | publicCreate now => exact hop.elim
      | callNext now => exact hop.elim
      | complete id now => exact hop.elim
      | setStatus id st now => exact hop.elim
    exact ih (applyOp op s) hwf' hrest

/-- Witness for `c1_amended`: from the empty queue, three enqueues, an
in-range reorder (token 1 from position 2 to position 3) and a cancellation
(token 0) keep the active positions exactly 1..N. -/
theorem c1_amended_witness :
    WFcore (emptyState defaultQueue) ∧
    coreSeq [Op.create 0, Op.create 0, Op.create 0, Op.reorder 1 3,
      Op.cancel 0 60000] (emptyState defaultQueue) ∧
    contiguous (run [Op.create 0, Op.create 0, Op.create 0, Op.reorder 1 3,
      Op.cancel 0 60000] (emptyState defaultQueue)) :=
⟨by decide, by decide,
 c1_amended [Op.create 0, Op.create 0, Op.create 0, Op.reorder 1 3,
   Op.cancel 0 60000] (emptyState defaultQueue) (by decide) (by decide)⟩

end SmartQueue
